import Mathlib

/-!
Verification development for the PDF-QA document indexing and hybrid
retrieval engine (backend/app/services/rag_engine.py and
backend/app/routers/documents.py).

Python strings are modelled as `List Char`.  Character classes follow
Python's `re` module with the UNICODE flag, restricted to the alphabet the
system actually processes: ASCII plus the CJK Unified Ideographs block
U+4E00..U+9FFF (the spec's noise filter, dedup normalisation and query
tokenizer only distinguish ASCII letters/digits, CJK ideographs,
whitespace and everything else).
-/

namespace PDFQA

/-- Python strings as character lists. -/
abbrev Text := List Char

/-- ASCII whitespace, the characters matched by Python's regex class for
whitespace on the inputs this system handles. -/
def isSpaceChar (c : Char) : Bool :=
  c == ' ' || c == '\t' || c == '\n' || c == '\r' || c == '\x0b' || c == '\x0c'

/-- CJK Unified Ideographs block, the range tested by the source via
a comparison of each character against the first and last ideograph. -/
def isCJK (c : Char) : Bool :=
  0x4e00 ≤ c.toNat && c.toNat ≤ 0x9fff

/-- Python regex word character (UNICODE), over the modelled alphabet:
ASCII alphanumerics, the underscore, and CJK ideographs. -/
def isWordChar (c : Char) : Bool :=
  c.isAlphanum || c == '_' || isCJK c

/-- Python str.strip(): drop leading and trailing whitespace. -/
def pyStrip (l : Text) : Text :=
  ((l.dropWhile isSpaceChar).reverse.dropWhile isSpaceChar).reverse

/-- Python str.isascii(): every character has code point below 128. -/
def isAsciiText (l : Text) : Bool :=
  l.all (fun c => c.toNat ≤ 127)

/-- Whitespace compaction: the source substitutes every whitespace run by
the empty string, so this is a plain filter. -/
def compactWs (l : Text) : Text :=
  l.filter (fun c => !(isSpaceChar c))

/-- RAGEngine._is_low_value_text: heuristic filter that drops OCR noise.
Mirrors the source's chain of early returns. -/
def is_low_value_text (text : Text) : Bool :=
  let t := pyStrip text
  if t = [] then true
  else
    let compact := compactWs t
    if compact.length ≤ 2 then true
    else if compact ≠ [] ∧ compact.all (fun c => !(isWordChar c) || c == '_') then true
    else
      let hasCjk := compact.any isCJK
      if hasCjk ∧ compact.length ≤ 3 then true
      else if isAsciiText compact then
        if compact ≠ [] ∧ compact.length ≤ 4 ∧ compact.all Char.isAlpha then true
        else if compact ≠ [] ∧ compact.length ≤ 2 ∧ compact.all Char.isDigit then true
        else if compact.length ≤ 4 ∧
            ¬(3 ≤ compact.length ∧ compact.length ≤ 4 ∧ compact.all Char.isDigit) then true
        else false
      else false

/-- The noise-filter predicate exactly as the spec sentence words it:
drop a line iff, after whitespace compaction, it is empty, has at most 2
visible characters, is pure punctuation, is a 1-4 letter ASCII token, or
is a 1-2 digit number.  Written from the spec's words, for comparison
with the source's `is_low_value_text`. -/
def specNoiseDrop (text : Text) : Bool :=
  let compact := compactWs (pyStrip text)
  (compact = []) ||
  (compact.length ≤ 2) ||
  (compact ≠ [] && compact.all (fun c => !(isWordChar c) || c == '_')) ||
  (compact ≠ [] && decide (compact.length ≤ 4) && compact.all Char.isAlpha &&
    isAsciiText compact) ||
  (compact ≠ [] && decide (compact.length ≤ 2) && compact.all Char.isDigit &&
    isAsciiText compact)

/-- The noise-filter predicate as the amended claim words it: in addition
to the five spec rules, a line is also dropped when it contains a CJK
character and has at most 3 visible characters, and when it is all-ASCII
with at most 4 visible characters and is not a 3-4 digit number. -/
def amendedNoiseDrop (text : Text) : Bool :=
  let compact := compactWs (pyStrip text)
  (compact = []) ||
  (compact.length ≤ 2) ||
  (compact ≠ [] && compact.all (fun c => !(isWordChar c) || c == '_')) ||
  (compact.any isCJK && decide (compact.length ≤ 3)) ||
  (isAsciiText compact &&
    ((compact ≠ [] && decide (compact.length ≤ 4) && compact.all Char.isAlpha) ||
     (compact ≠ [] && decide (compact.length ≤ 2) && compact.all Char.isDigit) ||
     (decide (compact.length ≤ 4) &&
       !(decide (3 ≤ compact.length) && decide (compact.length ≤ 4) &&
         compact.all Char.isDigit))))

/-- Replace every whitespace run by a single blank, as the source's
substitution of the whitespace-run pattern by one space does. -/
def collapseWs : Text → Text
  | [] => []
  | [c] => if isSpaceChar c then [' '] else [c]
  | c :: d :: r =>
    if isSpaceChar c then
      if isSpaceChar d then collapseWs (d :: r) else ' ' :: collapseWs (d :: r)
    else c :: collapseWs (d :: r)

/-- RAGEngine._normalize_for_dedup: lower-case, collapse whitespace, keep
only word characters (ASCII alphanumerics, underscore, CJK) and blanks,
strip. -/
def normalize_for_dedup (text : Text) : Text :=
  let t := (pyStrip text).map Char.toLower
  if t = [] then []
  else
    let t1 := collapseWs t
    let t2 := t1.filter (fun c => isWordChar c || c == ' ')
    pyStrip t2

/-- Python str.split on a single newline; an empty string yields one empty
piece, exactly as in Python. -/
def splitNL : Text → List Text
  | [] => [[]]
  | c :: r =>
    match splitNL r with
    | [] => [[]]
    | h :: t => if c = '\n' then [] :: h :: t else (c :: h) :: t

/-- Python newline join of a piece list. -/
def joinNL : List Text → Text
  | [] => []
  | [t] => t
  | t :: t2 :: rest => t ++ '\n' :: joinNL (t2 :: rest)

/-- Decimal digit character. -/
def digitChar : Nat → Char
  | 0 => '0' | 1 => '1' | 2 => '2' | 3 => '3' | 4 => '4'
  | 5 => '5' | 6 => '6' | 7 => '7' | 8 => '8' | _ => '9'

/-- Decimal rendering with fuel (structural recursion so that values
compute by kernel reduction; the fuel below always suffices). -/
def natDecimalAux : Nat → Nat → Text
  | 0, _ => []
  | fuel + 1, n =>
    if n < 10 then [digitChar n]
    else natDecimalAux fuel (n / 10) ++ [digitChar (n % 10)]

/-- Decimal rendering of a natural number, as Python renders a nonnegative
int inside an f-string. -/
def natDecimal (n : Nat) : Text := natDecimalAux (n + 1) n

/-- Value of a decimal digit character (0 on non-digits). -/
def charVal (c : Char) : Nat :=
  if c = '0' then 0 else if c = '1' then 1 else if c = '2' then 2
  else if c = '3' then 3 else if c = '4' then 4 else if c = '5' then 5
  else if c = '6' then 6 else if c = '7' then 7 else if c = '8' then 8
  else if c = '9' then 9 else 0

/-- Left fold reading a digit string back into a number; used to show the
decimal rendering is injective. -/
def decValAux : Text → Nat → Nat
  | [], acc => acc
  | c :: rest, acc => decValAux rest (acc * 10 + charVal c)

/-- Zero padding to width 4, as the 04d format specifier produces. -/
def pad4 (n : Nat) : Text :=
  List.replicate (4 - (natDecimal n).length) '0' ++ natDecimal n

/-- A block identifier b0001, b0002, ... from the per-document counter. -/
def block_id_text (n : Nat) : Text := 'b' :: pad4 n

/-- Chroma id of a chunk produced by index_document: doc id, underscore,
block id. -/
def blockChunkId (docId : Text) (n : Nat) : Text :=
  docId ++ '_' :: block_id_text n

/-- Chroma id of a chunk produced by index_ocr_result: doc id, then the
page and the running index in the literal p-ocr format of the source. -/
def ocrChunkId (docId : Text) (pageNum idx : Nat) : Text :=
  docId ++ '_' :: 'p' :: (natDecimal pageNum ++ '_' :: 'o' :: 'c' :: 'r' :: natDecimal idx)

/-- A bounding box value as stored in chunk metadata. -/
structure BBoxQ where
  x : ℚ
  y : ℚ
  w : ℚ
  h : ℚ
deriving DecidableEq

/-- The metadata dict stored with a chunk in the Chroma collection.
Chunks from index_document carry a block id, and geometry chunks also a
per-line bbox list (stored as JSON in the source; JSON encoding and
decoding round-trips, so the list is held directly).  Chunks from
index_ocr_result carry neither. -/
structure EntryMeta where
  docId : Text
  page : Nat
  source : Text
  blockId : Option Text
  bboxX : ℚ
  bboxY : ℚ
  bboxW : ℚ
  bboxH : ℚ
  bboxLines : Option (List BBoxQ)
deriving DecidableEq

/-- One indexed chunk: Chroma id, document text, metadata.  Embedding
vectors live in the external vector index and are not part of the stored
record this development reasons about; nearest-neighbour rankings enter
`retrieve` as explicit inputs. -/
structure Entry where
  id : Text
  content : Text
  meta : EntryMeta
deriving DecidableEq

/-- The Chroma collection contents. -/
abbrev Collection := List Entry

/-- One element of the chunk-dict list handed to index_ocr_result: the
fragment text and its bounding box (the model_dump of a BoundingBox, so
all keys are present). -/
structure OCRChunkIn where
  text : Text
  bbox : BBoxQ
deriving DecidableEq

/-- The entries index_ocr_result builds: enumerate the chunk dicts,
skip whitespace-only texts, give each kept chunk the page-scoped OCR id
for its enumeration index, the page number, source ocr, and the bbox
fields; no block id and no per-line bbox list are stored. -/
def ocrEntriesForAux (docId : Text) (pageNum : Nat) : Nat → List OCRChunkIn → List Entry
  | _, [] => []
  | idx, ch :: rest =>
    if pyStrip ch.text = [] then ocrEntriesForAux docId pageNum (idx + 1) rest
    else
      { id := ocrChunkId docId pageNum idx
        content := ch.text
        meta :=
          { docId := docId, page := pageNum, source := "ocr".data, blockId := none
            bboxX := ch.bbox.x, bboxY := ch.bbox.y, bboxW := ch.bbox.w, bboxH := ch.bbox.h
            bboxLines := none } } :: ocrEntriesForAux docId pageNum (idx + 1) rest

/-- RAGEngine.index_ocr_result: add the OCR entries of a page to the
collection and return the indexed count. -/
def index_ocr_result (coll : Collection) (docId : Text) (pageNum : Nat)
    (chunks : List OCRChunkIn) : Collection × Nat :=
  let es := ocrEntriesForAux docId pageNum 0 chunks
  (coll ++ es, es.length)

/-- documents._clear_page_ocr_chunks: delete every chunk of the document
whose page matches and whose source is ocr. -/
def clear_page_ocr_chunks (coll : Collection) (docId : Text) (pageNum : Nat) : Collection :=
  coll.filter (fun e =>
    !(decide (e.meta.docId = docId ∧ e.meta.page = pageNum ∧ e.meta.source = "ocr".data)))

/-- Python slice text from start to stop (clipping like Python does). -/
def slice (l : Text) (start stop : Nat) : Text :=
  (l.drop start).take (stop - start)

/-- Python str.rfind of a substring: the greatest index at which the
needle occurs, if any. -/
def rfindSub (hay needle : Text) : Option Nat :=
  (List.range (hay.length + 1)).reverse.find? (fun i => needle.isPrefixOf (hay.drop i))

/-- The separator preference list of RAGEngine._chunk_text. -/
def sepList : List Text :=
  [['\n', '\n'], ['。'], ['.'], ['\n'], ['；'], [';'], ['，'], [',']]

/-- Scan the separators in order; the first whose last occurrence in the
window lies beyond half the chunk size determines the adjusted cut, at
that occurrence plus the separator length. -/
def findSepEnd (window : Text) (half : Nat) : List Text → Option Nat
  | [] => none
  | sep :: rest =>
    match rfindSub window sep with
    | some j => if half < j then some (j + sep.length) else findSepEnd window half rest
    | none => findSepEnd window half rest

/-- The cut position one iteration of _chunk_text uses: the plain
chunk-size end, pulled back to the last preferred separator when the end
falls inside the text and a separator occurs past half the chunk size. -/
def chunkEnd (text : Text) (chunkSize start : Nat) : Nat :=
  if start + chunkSize < text.length then
    match findSepEnd (slice text start (start + chunkSize)) (chunkSize / 2) sepList with
    | some r => start + r
    | none => start + chunkSize
  else start + chunkSize

/-- The while loop of RAGEngine._chunk_text, with explicit fuel: take the
slice up to the (possibly separator-adjusted) cut, strip, keep nonempty
chunks, and restart at the cut minus the overlap. -/
def chunkTextAux (text : Text) (chunkSize overlap : Nat) : Nat → Nat → Option (List Text)
  | 0, _ => none
  | fuel + 1, start =>
    if start < text.length then
      let endAdj := chunkEnd text chunkSize start
      let chunk := pyStrip (slice text start endAdj)
      match chunkTextAux text chunkSize overlap fuel (endAdj - overlap) with
      | none => none
      | some cs => some (if chunk = [] then cs else chunk :: cs)
    else some []

/-- RAGEngine._chunk_text at its default parameters (chunk size 500,
overlap 50), the only way index_document calls it.  The fuel suffices, as
proven below, so the value is always some list. -/
def chunk_text (text : Text) : Option (List Text) :=
  if text.length ≤ 500 then some (if pyStrip text = [] then [] else [text])
  else chunkTextAux text 500 50 (text.length + 1) 0

/-- Keep-first deduplication with an explicit seen accumulator. -/
def dedupKeepFirstAux {α : Type} [DecidableEq α] (seen : List α) : List α → List α
  | [] => []
  | x :: xs =>
    if x ∈ seen then dedupKeepFirstAux seen xs
    else x :: dedupKeepFirstAux (x :: seen) xs

/-- Keep the first occurrence of every element, as Python set insertion
order does for the key lists built here. -/
def dedupKeepFirst {α : Type} [DecidableEq α] (l : List α) : List α :=
  dedupKeepFirstAux [] l

/-- Increment the count of a key in a frequency list, inserting it at
count 1 when absent. -/
def bumpFreq (acc : List (Text × Nat)) (k : Text) : List (Text × Nat) :=
  if acc.any (fun kv => decide (kv.1 = k)) then
    acc.map (fun kv => if kv.1 = k then (kv.1, kv.2 + 1) else kv)
  else acc ++ [(k, 1)]

/-- One page of parsed content handed to index_document.  A missing
coordinate list is the empty list. -/
structure PageContentM where
  page_number : Nat
  type : Text
  text : Text
  coordinates : List BBoxQ
deriving DecidableEq

/-- RAGEngine._collect_header_footer_repeat_keys: sample the first three
and (when more exist) last three nonempty lines of every page, normalize
the ones that pass the noise filter and have a key of at least 6
characters, count in how many pages each key appears, and blacklist keys
reaching the threshold.  The source computes the threshold with float
multiplication by 0.35 and truncation; the exact rational floor is used
here. -/
def collect_header_footer_repeat_keys (pages : List PageContentM) : List Text :=
  if pages.length < 3 then []
  else
    let freqs := pages.foldl (fun acc page =>
      let lines := ((splitNL page.text).map pyStrip).filter (fun l => decide (l ≠ []))
      if lines = [] then acc
      else
        let sample := lines.take 3 ++
          (if 3 < lines.length then lines.drop (lines.length - 3) else [])
        let seen := dedupKeepFirst (sample.filterMap (fun line =>
          if is_low_value_text line then none
          else
            let key := normalize_for_dedup line
            if key.length < 6 then none else some key))
        seen.foldl bumpFreq acc) []
    let threshold := max 3 (pages.length * 35 / 100)
    ((freqs.filter (fun kv => decide (threshold ≤ kv.2))).map (fun kv => kv.1))

/-- One surviving line of a coordinate page, paired with its bbox values
(the source reads attribute or key x, y, w, h from the coordinate). -/
structure LineEntry where
  text : Text
  x : ℚ
  y : ℚ
  w : ℚ
  h : ℚ
deriving DecidableEq

/-- Whether one raw line of a coordinate page survives: nonempty after
stripping, not low-value, and its dedup key not blacklisted. -/
def pageLineKeep (hfKeys : List Text) (raw : Text) : Bool :=
  if pyStrip raw = [] then false
  else if is_low_value_text (pyStrip raw) then false
  else !(decide (normalize_for_dedup (pyStrip raw) ≠ [] ∧
    normalize_for_dedup (pyStrip raw) ∈ hfKeys))

/-- The entry-building loop of index_document for a page with
coordinates: enumerate the newline-split lines, strip, drop empty and
low-value lines and lines whose dedup key is blacklisted, attach the
coordinate at the line's index or the estimated fallback box. -/
def pageLineEntriesAux (hfKeys : List Text) (coords : List BBoxQ) (total : Nat) :
    Nat → List Text → List LineEntry
  | _, [] => []
  | idx, raw :: rest =>
    if pageLineKeep hfKeys raw then
      (match coords.get? idx with
       | some c => { text := pyStrip raw, x := c.x, y := c.y, w := c.w, h := c.h }
       | none =>
         { text := pyStrip raw, x := 50, y := (1 - (idx : ℚ) / (max total 1 : Nat)) * 700
           w := 500, h := 30 : LineEntry })
        :: pageLineEntriesAux hfKeys coords total (idx + 1) rest
    else pageLineEntriesAux hfKeys coords total (idx + 1) rest

/-- All surviving line entries of one coordinate page. -/
def page_line_entries (hfKeys : List Text) (page : PageContentM) : List LineEntry :=
  let textLines := splitNL page.text
  pageLineEntriesAux hfKeys page.coordinates textLines.length 0 textLines

/-- The running state of index_document's merge loop: the open chunk
(current_texts, current_bbox, current_line_bboxes), the cross-page dedup
set, the per-document block counter, and the entries emitted so far. -/
structure GeoState where
  curTexts : List Text
  curBbox : Option (ℚ × ℚ × ℚ × ℚ)
  curLines : List BBoxQ
  seen : List Text
  count : Nat
  out : List Entry

/-- flush_current of index_document: close the open chunk, dropping it
when empty, low-value, or an at-least-80-character dedup duplicate;
otherwise bump the block counter and emit the entry with the envelope
bbox and the per-line bbox list. -/
def flush_current (docId : Text) (pageNum : Nat) (pageType : Text) (st : GeoState) : GeoState :=
  match st.curBbox with
  | none => { st with curTexts := [], curBbox := none, curLines := [] }
  | some (x0, y0, x1, y1) =>
    if st.curTexts = [] then { st with curTexts := [], curBbox := none, curLines := [] }
    else if pyStrip (joinNL st.curTexts) = [] ∨
        is_low_value_text (pyStrip (joinNL st.curTexts)) then
      { st with curTexts := [], curBbox := none, curLines := [] }
    else if normalize_for_dedup (pyStrip (joinNL st.curTexts)) ≠ [] ∧
        80 ≤ (normalize_for_dedup (pyStrip (joinNL st.curTexts))).length ∧
        normalize_for_dedup (pyStrip (joinNL st.curTexts)) ∈ st.seen then
      { st with curTexts := [], curBbox := none, curLines := [] }
    else
      { curTexts := [], curBbox := none, curLines := []
        seen :=
          if normalize_for_dedup (pyStrip (joinNL st.curTexts)) ≠ [] ∧
              80 ≤ (normalize_for_dedup (pyStrip (joinNL st.curTexts))).length then
            st.seen ++ [normalize_for_dedup (pyStrip (joinNL st.curTexts))]
          else st.seen
        count := st.count + 1
        out := st.out ++
          [{ id := blockChunkId docId (st.count + 1)
             content := pyStrip (joinNL st.curTexts)
             meta :=
               { docId := docId, page := pageNum, source := pageType
                 blockId := some (block_id_text (st.count + 1))
                 bboxX := x0, bboxY := y0, bboxW := x1 - x0, bboxH := y1 - y0
                 bboxLines := some st.curLines } }] }

/-- One step of index_document's merge loop on a line entry: start a new
open chunk when none is open; flush first when adding the line would push
the running length past 320 characters or the open chunk already holds 8
lines; otherwise append the line and union the envelope. -/
def geoStep (docId : Text) (pageNum : Nat) (pageType : Text) (st : GeoState)
    (e : LineEntry) : GeoState :=
  if st.curTexts = [] then
    { st with
      curTexts := [e.text]
      curBbox := some (e.x, e.y, e.x + e.w, e.y + e.h)
      curLines := [⟨e.x, e.y, e.w, e.h⟩] }
  else if 320 < (st.curTexts.map List.length).sum + (st.curTexts.length - 1) + 1 +
      e.text.length ∨ 8 ≤ st.curTexts.length then
    { flush_current docId pageNum pageType st with
      curTexts := [e.text]
      curBbox := some (e.x, e.y, e.x + e.w, e.y + e.h)
      curLines := [⟨e.x, e.y, e.w, e.h⟩] }
  else
    match st.curBbox with
    | some (cx0, cy0, cx1, cy1) =>
      { st with
        curTexts := st.curTexts ++ [e.text]
        curLines := st.curLines ++ [⟨e.x, e.y, e.w, e.h⟩]
        curBbox := some (min cx0 e.x, min cy0 e.y, max cx1 (e.x + e.w), max cy1 (e.y + e.h)) }
    | none =>
      { st with
        curTexts := st.curTexts ++ [e.text]
        curLines := st.curLines ++ [⟨e.x, e.y, e.w, e.h⟩] }

/-- Merge one coordinate page's line entries into the running state and
flush the trailing open chunk, as index_document does per page. -/
def geoMergePage (docId : Text) (pageNum : Nat) (pageType : Text)
    (entries : List LineEntry) (st : GeoState) : GeoState :=
  flush_current docId pageNum pageType (entries.foldl (geoStep docId pageNum pageType) st)

/-- The running cross-page state of index_document outside an open
chunk: dedup set, block counter, emitted entries. -/
structure IndexDocState where
  seen : List Text
  count : Nat
  out : List Entry

/-- One step of the geometry-free fallback path: drop low-value chunks
and at-least-80-character dedup duplicates, bump the counter, emit one
entry with an estimated box and no per-line bbox list. -/
def textPathStep (docId : Text) (pageNum : Nat) (pageType : Text) (total : Nat)
    (acc : IndexDocState) (p : Nat × Text) : IndexDocState :=
  if is_low_value_text p.2 then acc
  else if normalize_for_dedup p.2 ≠ [] ∧ 80 ≤ (normalize_for_dedup p.2).length ∧
      normalize_for_dedup p.2 ∈ acc.seen then acc
  else
    { seen :=
        if normalize_for_dedup p.2 ≠ [] ∧ 80 ≤ (normalize_for_dedup p.2).length then
          acc.seen ++ [normalize_for_dedup p.2]
        else acc.seen
      count := acc.count + 1
      out := acc.out ++
        [{ id := blockChunkId docId (acc.count + 1)
           content := p.2
           meta :=
             { docId := docId, page := pageNum, source := pageType
               blockId := some (block_id_text (acc.count + 1))
               bboxX := 50, bboxY := (1 - (p.1 : ℚ) / (max total 1 : Nat)) * 700
               bboxW := 500, bboxH := 50
               bboxLines := none } }] }

/-- The geometry-free fallback path of index_document for one page:
split the text by size, then filter, dedup, and emit entries with
estimated boxes.  The chunk list index drives the estimated vertical
position. -/
def textPathPage (docId : Text) (pageNum : Nat) (pageType : Text) (chunksIn : List Text)
    (st : IndexDocState) : IndexDocState :=
  (chunksIn.enum).foldl (textPathStep docId pageNum pageType chunksIn.length) st

/-- Project the merge state back to the cross-page state. -/
def geoToIdx (g : GeoState) : IndexDocState :=
  { seen := g.seen, count := g.count, out := g.out }

/-- Open a fresh merge state for a page over the running cross-page
state. -/
def idxToGeo (st : IndexDocState) : GeoState :=
  { curTexts := [], curBbox := none, curLines := []
    seen := st.seen, count := st.count, out := st.out }

/-- The per-page step of index_document: skip empty pages, run the
geometry merge path for pages carrying coordinates, and the size-split
fallback path otherwise. -/
def indexDocPageStep (docId : Text) (hfKeys : List Text) (st : IndexDocState)
    (page : PageContentM) : IndexDocState :=
  if page.text = [] then st
  else if page.coordinates ≠ [] then
    geoToIdx (geoMergePage docId page.page_number page.type
      (page_line_entries hfKeys page) (idxToGeo st))
  else
    textPathPage docId page.page_number page.type ((chunk_text page.text).getD []) st

/-- RAGEngine.index_document: build the blacklist, then walk the pages,
running the geometry merge path for pages carrying coordinates and the
size-split fallback path otherwise; returns the new entries and their
count (the source appends them to the collection and reports the
count). -/
def index_document (docId : Text) (pages : List PageContentM) : List Entry × Nat :=
  let final := pages.foldl
    (indexDocPageStep docId (collect_header_footer_repeat_keys pages))
    { seen := [], count := 0, out := [] }
  (final.out, final.out.length)

/-- A bounding box as returned to retrieval callers. -/
structure BoundingBoxM where
  page : Nat
  x : ℚ
  y : ℚ
  w : ℚ
  h : ℚ
deriving DecidableEq

/-- The TextChunk record retrieve returns. -/
structure TextChunkM where
  id : Text
  document_id : Text
  page_number : Nat
  content : Text
  bbox : BoundingBoxM
  source_type : Text
  distance : ℚ
  ref_id : Option Text
  block_id : Option Text
deriving DecidableEq

/-- Character classes of the query tokenizer regex: CJK runs, ASCII
letter runs, digit runs, everything else. -/
inductive CharClass
  | cjk
  | alpha
  | digit
  | other
deriving DecidableEq

/-- Class of one character for the query tokenizer. -/
def charClass (c : Char) : CharClass :=
  if isCJK c then CharClass.cjk
  else if c.isAlpha then CharClass.alpha
  else if c.isDigit then CharClass.digit
  else CharClass.other

/-- Maximal same-class runs of a text, in order. -/
def splitRuns : Text → List (CharClass × Text)
  | [] => []
  | c :: r =>
    match splitRuns r with
    | [] => [(charClass c, [c])]
    | (k, t) :: rest =>
      if charClass c = k then (k, c :: t) :: rest
      else (charClass c, [c]) :: (k, t) :: rest

/-- The token list the source's findall of CJK, ASCII-letter and digit
runs of length at least 2 produces: since the three classes are disjoint,
the regex scan returns exactly the maximal runs of those classes that are
at least 2 long. -/
def query_tokens (q : Text) : List Text :=
  ((splitRuns q).filter (fun kt =>
    decide (kt.1 ≠ CharClass.other) && decide (2 ≤ kt.2.length))).map (fun kt => kt.2)

/-- Python substring containment (tok in t). -/
def containsSub (hay needle : Text) : Bool :=
  (List.range (hay.length + 1)).any (fun i => needle.isPrefixOf (hay.drop i))

/-- RAGEngine._select_best_line_index: score each line by twice the
number of query tokens it contains plus a small length bonus, return the
index of the first line attaining the strictly best score. -/
def select_best_line_index (query : Text) (lines : List Text) : Nat :=
  if lines = [] then 0
  else
    let q := pyStrip query
    if q = [] then 0
    else
      let toks0 := query_tokens q
      let toks := if toks0 = [] then [q] else toks0
      let result := (lines.enum).foldl (fun (best : Nat × ℚ) p =>
        let t := pyStrip p.2
        if t = [] then best
        else
          let nMatches := (toks.filter (fun tok =>
            decide (tok ≠ []) && containsSub t tok)).length
          let score : ℚ := 2 * nMatches + (min t.length 120 : ℚ) / 120
          if best.2 < score then (p.1, score) else best) (0, -1)
      result.1

/-- Build the returned TextChunk for one surviving candidate entry,
narrowing the bbox to the best-matching stored line bbox when a per-line
bbox list is present (the clamp of the line index mirrors the source). -/
def build_text_chunk (query docId : Text) (e : Entry) : TextChunkM :=
  let base := (e.meta.bboxX, e.meta.bboxY, e.meta.bboxW, e.meta.bboxH)
  let refined :=
    match e.meta.bboxLines with
    | some bls =>
      if bls ≠ [] then
        let lines := (splitNL e.content).take bls.length
        let li := select_best_line_index query lines
        let li2 := min li (bls.length - 1)
        match bls.get? li2 with
        | some b => (b.x, b.y, b.w, b.h)
        | none => base
      else base
    | none => base
  { id := e.id
    document_id := docId
    page_number := e.meta.page
    content := e.content
    bbox :=
      { page := e.meta.page, x := refined.1, y := refined.2.1
        w := refined.2.2.1, h := refined.2.2.2 }
    source_type := e.meta.source
    distance := 0
    ref_id := none
    block_id := e.meta.blockId }

/-- Total reciprocal-rank-fusion contribution of one ranked list to one
candidate id: 1 / (60 + rank + 1) per occurrence. -/
def rrfContribution (ids : List Text) (cid : Text) : ℚ :=
  ((ids.enum).filter (fun p => decide (p.2 = cid))).foldl
    (fun a p => a + 1 / (60 + (p.1 : ℚ) + 1)) 0

/-- Fused score of a candidate id over the vector and lexical rankings. -/
def rrfScoreOf (vr br : List Text) (cid : Text) : ℚ :=
  rrfContribution vr cid + rrfContribution br cid

/-- Stable insertion (from the right) for a descending sort by score. -/
def insertDescBy (score : Text → ℚ) (x : Text) : List Text → List Text
  | [] => [x]
  | y :: ys => if score y ≤ score x then x :: y :: ys else y :: insertDescBy score x ys

/-- Stable descending sort by score, the behaviour of Python's sorted
with a key and reverse=True. -/
def sortDescBy (score : Text → ℚ) (l : List Text) : List Text :=
  l.foldr (insertDescBy score) []

/-- The fused candidate ordering of retrieve: the score dict's keys in
insertion order (vector ranking first, then new lexical ids) sorted
stably by fused score, descending. -/
def fusedCandidateIds (vr br : List Text) : List Text :=
  sortDescBy (rrfScoreOf vr br) (dedupKeepFirst (vr ++ br))

/-- Ascending insertion for building sorted page lists. -/
def insertAsc (x : Nat) : List Nat → List Nat
  | [] => [x]
  | y :: ys => if x ≤ y then x :: y :: ys else y :: insertAsc x ys

/-- sorted(set(l)): the distinct elements in ascending order. -/
def sortedDedupAsc (l : List Nat) : List Nat :=
  (dedupKeepFirst l).foldr insertAsc []

/-- Collection lookup by chunk id (Chroma ids are unique). -/
def collFind (coll : Collection) (cid : Text) : Option Entry :=
  coll.find? (fun e => decide (e.id = cid))

/-- The per-candidate materialisation step of retrieve: skip ids absent
from the collection, entries outside the allowed pages (when an allowed
set is active), and entries whose content fails the noise filter. -/
def processCandidate (coll : Collection) (query docId : Text) (allowedSet : List Nat)
    (cid : Text) : Option TextChunkM :=
  match collFind coll cid with
  | none => none
  | some e =>
    if allowedSet ≠ [] ∧ e.meta.page ∉ allowedSet then none
    else if is_low_value_text e.content then none
    else some (build_text_chunk query docId e)

/-- The candidate chunk list retrieve materialises: the fused ids
truncated to the candidate limit, looked up, filtered, built, and capped
at the candidate limit. -/
def retrieveCandidates (coll : Collection) (vr br : List Text) (query docId : Text)
    (topK : Nat) (allowedSet : List Nat) : List TextChunkM :=
  let limit := max (topK * 20) 200
  (((fusedCandidateIds vr br).take limit).filterMap
    (processCandidate coll query docId allowedSet)).take limit

/-- The first phase of page-coverage selection: walk the allowed pages in
ascending order, append each page's best-ranked candidate, stop when
top-k slots are filled. -/
def coverPick (cands : List TextChunkM) (topK : Nat) :
    List Nat → List TextChunkM → List TextChunkM
  | [], sel => sel
  | p :: ps, sel =>
    match cands.find? (fun c => decide (c.page_number = p)) with
    | none => coverPick cands topK ps sel
    | some c =>
      if topK ≤ (sel ++ [c]).length then sel ++ [c]
      else coverPick cands topK ps (sel ++ [c])

/-- The second phase of page-coverage selection: fill the remaining
slots from the global candidate ranking, skipping chunks already
chosen. -/
def fillLoop (topK : Nat) : List TextChunkM → List Text → List TextChunkM → List TextChunkM
  | [], _, sel => sel
  | c :: cs, used, sel =>
    if c.id ∈ used then fillLoop topK cs used sel
    else if topK ≤ (sel ++ [c]).length then sel ++ [c]
    else fillLoop topK cs (used ++ [c.id]) (sel ++ [c])

/-- Page-coverage selection as retrieve runs it. -/
def coverSelect (allowedSet : List Nat) (cands : List TextChunkM) (topK : Nat) :
    List TextChunkM :=
  (if (coverPick cands topK allowedSet []).length < topK then
    fillLoop topK cands ((coverPick cands topK allowedSet []).map (fun c => c.id))
      (coverPick cands topK allowedSet [])
  else coverPick cands topK allowedSet []).take topK

/-- Assign sequential reference ids ref-1, ref-2, ... in final order. -/
def assignRefs (cs : List TextChunkM) : List TextChunkM :=
  (cs.enum).map (fun p =>
    { p.2 with ref_id := some ("ref-".data ++ natDecimal (p.1 + 1)) })

/-- RAGEngine.retrieve.  The nearest-neighbour ids from the external
vector index and the positive-score lexical ids are inputs (vr, br);
everything after those external calls follows the source: the explicit
empty allowed-page set short-circuits to an empty result, candidates are
fused by reciprocal rank, materialised, filtered, then selected either
by page coverage (when enabled, the allowed set is nonempty and has at
most 20 pages) or by plain top-k, and reference ids are assigned. -/
def retrieve (coll : Collection) (vr br : List Text) (query docId : Text) (topK : Nat)
    (allowedPages : Option (List Nat)) (ensurePageCoverage : Bool) : List TextChunkM :=
  let allowedSet := sortedDedupAsc (allowedPages.getD [])
  if allowedPages.isSome ∧ allowedSet = [] then []
  else
    let fused := fusedCandidateIds vr br
    if fused = [] then []
    else
      let cands := retrieveCandidates coll vr br query docId topK allowedSet
      if cands = [] then []
      else
        let chunks :=
          if ensurePageCoverage = true ∧ allowedSet ≠ [] ∧ allowedSet.length ≤ 20 then
            coverSelect allowedSet cands topK
          else cands.take topK
        assignRefs chunks

/-- Per-page OCR status, the VALID_OCR_STATUS values. -/
inductive PageStatus
  | unrecognized
  | processing
  | recognized
  | failed
deriving DecidableEq

/-- The recognition provider that produced a page's fragments. -/
inductive Provider
  | baidu
  | localOcr
deriving DecidableEq

/-- Behaviour of one call to the primary remote provider: usable
fragments, an authentication/permission error, or any other error. -/
inductive PrimaryBehavior
  | ok (chunks : List OCRChunkIn)
  | authError
  | otherError
deriving DecidableEq

/-- The per-page environment of one recognition attempt: whether the
primary provider is configured (both its URL and token present), how the
primary behaves if called, what the local gateway returns (none models a
raised exception), whether the document file is on disk, and whether the
page image renders. -/
structure PageEnv where
  hasBaidu : Bool
  primary : PrimaryBehavior
  localResult : Option (List OCRChunkIn)
  hasFile : Bool
  imageOk : Bool

/-- documents._run_ocr: try the primary when configured; on usable
nonempty fragments return them tagged baidu; on a permission error, any
other error, or empty fragments fall through to the local gateway.  The
second component records whether the primary was invoked. -/
def run_ocr (env : PageEnv) : Option (List OCRChunkIn × Provider) × Bool :=
  if env.hasBaidu then
    match env.primary with
    | PrimaryBehavior.ok cs =>
      if cs ≠ [] then (some (cs, Provider.baidu), true)
      else (env.localResult.map (fun cs => (cs, Provider.localOcr)), true)
    | PrimaryBehavior.authError =>
      (env.localResult.map (fun cs => (cs, Provider.localOcr)), true)
    | PrimaryBehavior.otherError =>
      (env.localResult.map (fun cs => (cs, Provider.localOcr)), true)
  else (env.localResult.map (fun cs => (cs, Provider.localOcr)), false)

/-- The in-process state the recognition pipeline mutates for one
document: page count, the per-page status view (the status map with its
get-default of unrecognized), the chunk counter, the index collection,
and the per-document pending-page set of the queue. -/
structure SysSt where
  totalPages : Nat
  statusMap : Nat → PageStatus
  chunkCount : Nat
  coll : Collection
  pending : List Nat

/-- Write one page's status. -/
def setStatus (st : SysSt) (p : Nat) (s : PageStatus) : SysSt :=
  { st with statusMap := Function.update st.statusMap p s }

/-- The failure commit of recognize_document_page: mark the page failed
unless it is already recognized. -/
def markFailed (st : SysSt) (p : Nat) : SysSt :=
  if st.statusMap p = PageStatus.recognized then st else setStatus st p PageStatus.failed

/-- What one call to recognize_document_page reports: the two
short-circuit responses, success with the indexed count, or a raised
error. -/
inductive RecognizeOutcome
  | alreadyRecognized
  | alreadyProcessing
  | recognizedOk (n : Nat)
  | errorOut
deriving DecidableEq

/-- documents.recognize_document_page: validate the page number, return
the informational short-circuits for recognized and processing pages
without touching any state, then mark processing, render, run the
provider chain, and on success replace the page's OCR chunks in the
index and mark recognized; every error after the processing mark commits
failed (unless the page is already recognized).  The third component
records whether the primary provider was invoked. -/
def recognize_document_page (st : SysSt) (docId : Text) (pageNum : Nat) (env : PageEnv) :
    RecognizeOutcome × SysSt × Bool :=
  if ¬(1 ≤ pageNum ∧ pageNum ≤ st.totalPages) then (RecognizeOutcome.errorOut, st, false)
  else if st.statusMap pageNum = PageStatus.recognized then
    (RecognizeOutcome.alreadyRecognized, st, false)
  else if st.statusMap pageNum = PageStatus.processing then
    (RecognizeOutcome.alreadyProcessing, st, false)
  else if ¬(env.hasFile = true) then (RecognizeOutcome.errorOut, st, false)
  else if ¬(env.imageOk = true) then
    (RecognizeOutcome.errorOut,
     markFailed (setStatus st pageNum PageStatus.processing) pageNum, false)
  else
    match run_ocr env with
    | (none, tried) =>
      (RecognizeOutcome.errorOut,
       markFailed (setStatus st pageNum PageStatus.processing) pageNum, tried)
    | (some (chunks, _prov), tried) =>
      if chunks = [] then
        (RecognizeOutcome.errorOut,
         markFailed (setStatus st pageNum PageStatus.processing) pageNum, tried)
      else if (index_ocr_result
          (clear_page_ocr_chunks (setStatus st pageNum PageStatus.processing).coll docId pageNum)
          docId pageNum chunks).2 = 0 then
        (RecognizeOutcome.errorOut,
         markFailed
           { setStatus st pageNum PageStatus.processing with
             coll := (index_ocr_result
               (clear_page_ocr_chunks (setStatus st pageNum PageStatus.processing).coll
                 docId pageNum) docId pageNum chunks).1 } pageNum, tried)
      else
        (RecognizeOutcome.recognizedOk (index_ocr_result
           (clear_page_ocr_chunks (setStatus st pageNum PageStatus.processing).coll docId pageNum)
           docId pageNum chunks).2,
         { setStatus st pageNum PageStatus.processing with
           coll := (index_ocr_result
             (clear_page_ocr_chunks (setStatus st pageNum PageStatus.processing).coll
               docId pageNum) docId pageNum chunks).1
           statusMap := Function.update
             (setStatus st pageNum PageStatus.processing).statusMap pageNum
             PageStatus.recognized
           chunkCount := (setStatus st pageNum PageStatus.processing).chunkCount +
             (index_ocr_result
               (clear_page_ocr_chunks (setStatus st pageNum PageStatus.processing).coll
                 docId pageNum) docId pageNum chunks).2 }, tried)

/-- documents._release_queued_pages: remove pages from the document's
pending-page set. -/
def releasePages (st : SysSt) (pages : List Nat) : SysSt :=
  { st with pending := st.pending.filter (fun p => decide (p ∉ pages)) }

/-- The per-job page loop of documents.run_ocr_worker, with the
cancellation flag read at each iteration boundary modelled by cancelAt
(the flag is set concurrently; the worker observes it when it checks):
on cancel, stop and release the remaining pages; otherwise recognize the
page (exceptions are caught and ignored), release it from the pending
set, and continue.  The trace records, per processed page, whether the
primary provider was invoked. -/
def runJobAux (docId : Text) (envs : Nat → PageEnv) (cancelAt : Nat → Bool) :
    Nat → SysSt → List Nat → SysSt × List (Nat × Bool)
  | _, st, [] => (st, [])
  | i, st, p :: rest =>
    if cancelAt i then (releasePages st (p :: rest), [])
    else
      ((runJobAux docId envs cancelAt (i + 1)
         (releasePages (recognize_document_page st docId p (envs i)).2.1 [p]) rest).1,
       (p, (recognize_document_page st docId p (envs i)).2.2) ::
        (runJobAux docId envs cancelAt (i + 1)
          (releasePages (recognize_document_page st docId p (envs i)).2.1 [p]) rest).2)

/-- One job of the OCR worker, started at the first iteration. -/
def run_ocr_worker_job (docId : Text) (envs : Nat → PageEnv) (cancelAt : Nat → Bool)
    (st : SysSt) (pages : List Nat) : SysSt × List (Nat × Bool) :=
  runJobAux docId envs cancelAt 0 st pages

/-- One page of the enqueue loop: skip recognized, processing and
already-pending pages; otherwise add the page to the queued list and the
pending set. -/
def enqueueStep (st : SysSt) (acc : List Nat × List Nat) (p : Nat) : List Nat × List Nat :=
  if st.statusMap p = PageStatus.recognized ∨ st.statusMap p = PageStatus.processing then acc
  else if p ∈ acc.2 then acc
  else (acc.1 ++ [p], acc.2 ++ [p])

/-- documents.enqueue_ocr_job, from the queue-lock section on: the
requested pages are deduplicated, sorted and range-checked, the
document's cancel flag is discarded, and each page that is neither
recognized nor processing nor already pending is added to the pending
set and queued.  Returns the queued pages and the state with the new
pending set. -/
def enqueue_ocr_job (st : SysSt) (pagesReq : List Nat) : List Nat × SysSt :=
  ((((sortedDedupAsc pagesReq).filter
      (fun p => decide (1 ≤ p ∧ p ≤ st.totalPages))).foldl (enqueueStep st)
      ([], st.pending)).1,
   { st with
     pending := (((sortedDedupAsc pagesReq).filter
       (fun p => decide (1 ≤ p ∧ p ≤ st.totalPages))).foldl (enqueueStep st)
       ([], st.pending)).2 })

/-- The index mutation recognize_document_page performs for a page: drop
the page's previous OCR chunks, then add the new ones. -/
def reindex_page_ocr (coll : Collection) (docId : Text) (pageNum : Nat)
    (chunks : List OCRChunkIn) : Collection :=
  (index_ocr_result (clear_page_ocr_chunks coll docId pageNum) docId pageNum chunks).1

/-- Well-formed chunk ids for a document: every OCR-sourced chunk of the
document carries the page-scoped OCR id of its page, every other chunk a
block-counter id.  This is the invariant the two indexing entry points
establish. -/
def DocIdsWellFormed (coll : Collection) (docId : Text) : Prop :=
  ∀ e ∈ coll, e.meta.docId = docId →
    (e.meta.source = "ocr".data → ∃ i, e.id = ocrChunkId docId e.meta.page i) ∧
    (e.meta.source ≠ "ocr".data → ∃ n, e.id = blockChunkId docId n)

/-! Concrete sample data used by the closed witness and counterexample
theorems below. -/

/-- Sample document id. -/
def docA : Text := "d".data

/-- Sample query. -/
def queryA : Text := "total".data

/-- A meaningful indexed chunk on page 1. -/
def entryA1 : Entry :=
  { id := "d_b0001".data
    content := "Meaningful content about contract totals".data
    meta :=
      { docId := docA, page := 1, source := "native".data, blockId := some "b0001".data
        bboxX := 50, bboxY := 700, bboxW := 400, bboxH := 30, bboxLines := none } }

/-- An indexed chunk on page 2 whose content is OCR noise: it was indexed
by index_ocr_result (its text is nonempty after stripping) but fails the
noise filter re-applied at retrieval time. -/
def entryA2 : Entry :=
  { id := "d_p2_ocr0".data
    content := "ab".data
    meta :=
      { docId := docA, page := 2, source := "ocr".data, blockId := none
        bboxX := 0, bboxY := 0, bboxW := 100, bboxH := 20, bboxLines := none } }

/-- Sample collection: one good chunk on page 1, one noise chunk on page 2. -/
def collA : Collection := [entryA1, entryA2]

/-- Vector ranking returning both chunks of the document. -/
def vrA : List Text := ["d_b0001".data, "d_p2_ocr0".data]

/-- A meaningful indexed chunk on page 2, for the positive coverage
sample. -/
def entryB2 : Entry :=
  { id := "d_p2_ocr0".data
    content := "Second page meaningful paragraph".data
    meta :=
      { docId := docA, page := 2, source := "ocr".data, blockId := none
        bboxX := 0, bboxY := 0, bboxW := 100, bboxH := 20, bboxLines := none } }

/-- Sample collection with meaningful chunks on both pages. -/
def collB : Collection := [entryA1, entryB2]

/-- Sample OCR fragment for the pipeline runs. -/
def ocrChunkC3 : OCRChunkIn :=
  { text := "Recognized paragraph text".data, bbox := ⟨0, 0, 50, 10⟩ }

/-- Page environment in which the primary provider is configured and
raises an authentication/permission error, while the local gateway
succeeds. -/
def envAuth : PageEnv :=
  { hasBaidu := true, primary := PrimaryBehavior.authError
    localResult := some [ocrChunkC3], hasFile := true, imageOk := true }

/-- Two-page document with both pages unrecognized and queued. -/
def stC3 : SysSt :=
  { totalPages := 2, statusMap := fun _ => PageStatus.unrecognized
    chunkCount := 0, coll := [], pending := [1, 2] }

/-- Arbitrary page environment for the cancellation runs. -/
def envC5 : PageEnv :=
  { hasBaidu := false, primary := PrimaryBehavior.otherError
    localResult := some [ocrChunkC3], hasFile := true, imageOk := true }

/-- One-page document whose page is in status failed (a failed page is
re-enqueueable) and queued. -/
def stC5 : SysSt :=
  { totalPages := 1, statusMap := fun _ => PageStatus.failed
    chunkCount := 0, coll := [], pending := [1] }

/-- One-page document whose page is unrecognized and queued. -/
def stC5w : SysSt :=
  { totalPages := 1, statusMap := fun _ => PageStatus.unrecognized
    chunkCount := 0, coll := [], pending := [1] }

/-- Two-page document: page 1 recognized, page 2 processing. -/
def stC6 : SysSt :=
  { totalPages := 2
    statusMap := fun q => if q = 1 then PageStatus.recognized else PageStatus.processing
    chunkCount := 3, coll := [entryA1], pending := [] }

/-- Page environment for the idempotence sample. -/
def envC6 : PageEnv :=
  { hasBaidu := false, primary := PrimaryBehavior.otherError
    localResult := none, hasFile := true, imageOk := true }

/-- First recognition result of page 1. -/
def chD1 : OCRChunkIn := { text := "Hello world example text".data, bbox := ⟨0, 0, 100, 20⟩ }

/-- Re-recognition result of page 1. -/
def chD2 : OCRChunkIn := { text := "Another recognized line".data, bbox := ⟨0, 0, 90, 18⟩ }

/-- The collection after the first recognition of page 1. -/
def collD1 : Collection := (index_ocr_result [] docA 1 [chD1]).1

/-- The entry index_ocr_result builds for the first recognition input. -/
def firstOcrEntryD : Entry :=
  { id := ocrChunkId docA 1 0
    content := chD1.text
    meta :=
      { docId := docA, page := 1, source := "ocr".data, blockId := none
        bboxX := 0, bboxY := 0, bboxW := 100, bboxH := 20, bboxLines := none } }

/-- The collection after re-recognizing page 1. -/
def collD2 : Collection := reindex_page_ocr collD1 docA 1 [chD2]

/-- A native chunk of page 2 with a block id, present before the
re-recognition of page 1. -/
def entryNativeD : Entry :=
  { id := blockChunkId docA 1
    content := "Some native page two content".data
    meta :=
      { docId := docA, page := 2, source := "native".data, blockId := some (block_id_text 1)
        bboxX := 0, bboxY := 0, bboxW := 10, bboxH := 10, bboxLines := none } }

/-- Collection holding the native page-2 chunk and the first OCR result
of page 1. -/
def collW4 : Collection := entryNativeD :: collD1

/-- The entry index_ocr_result builds for the re-recognition input. -/
def newOcrEntryD : Entry :=
  { id := ocrChunkId docA 1 0
    content := chD2.text
    meta :=
      { docId := docA, page := 1, source := "ocr".data, blockId := none
        bboxX := 0, bboxY := 0, bboxW := 90, bboxH := 18, bboxLines := none } }

/-- Sample document id for the chunk-bound witness. -/
def docW9 : Text := "w".data

/-- A one-page coordinate document: two meaningful lines with boxes. -/
def pageW9 : PageContentM :=
  { page_number := 1, type := "native".data
    text := "Hello world line one\nSecond meaningful line".data
    coordinates := [⟨0, 0, 100, 10⟩, ⟨0, 12, 100, 10⟩] }

/-- The single chunk index_document builds for that page: both lines
merged, envelope box unioned, per-line boxes recorded. -/
def entryW9 : Entry :=
  { id := blockChunkId docW9 1
    content := "Hello world line one\nSecond meaningful line".data
    meta :=
      { docId := docW9, page := 1, source := "native".data, blockId := some (block_id_text 1)
        bboxX := 0, bboxY := 0, bboxW := 100, bboxH := 22
        bboxLines := some [⟨0, 0, 100, 10⟩, ⟨0, 12, 100, 10⟩] } }

/-! Theorems. -/

theorem findSepEnd_gt {w : Text} {half r : Nat} :
    ∀ {seps : List Text}, findSepEnd w half seps = some r → half < r := by
  intro seps
  induction seps with
  | nil => intro h; simp [findSepEnd] at h
  | cons sep rest ih =>
    intro h
    unfold findSepEnd at h
    cases hf : rfindSub w sep with
    | some j =>
      rw [hf] at h
      by_cases hj : half < j
      · simp [hj] at h
        omega
      · simp [hj] at h
        exact ih h
    | none =>
      rw [hf] at h
      exact ih h

theorem chunkEnd_ge (text : Text) (start : Nat) : start + 51 ≤ chunkEnd text 500 start := by
  unfold chunkEnd
  split
  · split
    · rename_i r hf
      have := findSepEnd_gt hf
      omega
    · omega
  · omega

theorem chunkTextAux_isSome (text : Text) :
    ∀ (fuel start : Nat), text.length - start < fuel →
      (chunkTextAux text 500 50 fuel start).isSome = true := by
  intro fuel
  induction fuel with
  | zero => intro start h; omega
  | succ n ih =>
    intro start h
    by_cases hs : start < text.length
    · have hend := chunkEnd_ge text start
      have hlt : text.length - (chunkEnd text 500 start - 50) < n := by omega
      obtain ⟨cs, hcs⟩ := Option.isSome_iff_exists.mp (ih _ hlt)
      unfold chunkTextAux
      simp only [hs, if_true]
      rw [hcs]
      simp
    · unfold chunkTextAux
      simp [hs]

/-- C10: the geometry-free fallback text chunker terminates on every
input string: the adjusted cut always lies more than half the chunk size
past the current start, the subtracted overlap is smaller, so the start
strictly increases and a fuel of the text length suffices; the chunker
always returns a finite chunk list. -/
theorem c10_chunk_text_terminates (text : Text) : (chunk_text text).isSome = true := by
  unfold chunk_text
  by_cases h : text.length ≤ 500
  · simp [h]
  · simp only [h, if_false]
    exact chunkTextAux_isSome text (text.length + 1) 0 (by omega)

/-- C7 counterexample: a three-character CJK line is dropped by the
source filter although the spec's five rules (empty, at most 2 visible
characters, pure punctuation, 1-4 ASCII letters, 1-2 digits) say it
survives. -/
theorem c7_counterexample :
    is_low_value_text "你好吗".data = true ∧ specNoiseDrop "你好吗".data = false := by
  decide

/-- C7 amended: the noise filter drops a line if and only if, after
whitespace compaction, it is empty, has at most 2 visible characters, is
pure punctuation, contains a CJK character and has at most 3 visible
characters, or is all-ASCII and is a 1-4 letter token, a 1-2 digit
number, or any other token of at most 4 characters that is not a 3-4
digit number; every other line survives. -/
theorem c7_amended_filter_exact (t : Text) : is_low_value_text t = amendedNoiseDrop t := by
  unfold is_low_value_text amendedNoiseDrop
  by_cases h0 : pyStrip t = []
  · simp [h0, compactWs]
  · simp only [h0, if_false]
    split_ifs with h1 h2 h3 h4 h5 h6 h7 <;> simp_all <;> try omega
    · have hkey : List.length (compactWs (pyStrip t)) < 3 ∨
          ∃ x ∈ compactWs (pyStrip t), x.isDigit = false := by
        rcases h7 with ⟨h74, h7i⟩
        by_cases h34 : 3 ≤ List.length (compactWs (pyStrip t))
        · exact Or.inr (h7i h34 h74)
        · exact Or.inl (by omega)
      exact Or.inr (Or.inr hkey)
    · exact ⟨List.length_pos.mp (by omega), h3⟩
    · exact ⟨List.length_pos.mp (by omega), h3⟩

/-- C8 amended: a retrieval call whose explicit allowed-page set is
empty (the zero-recognized-pages case) returns the plain empty list; no
reason value is attached to the result. -/
theorem c8_amended_empty_no_reason (coll : Collection) (vr br : List Text)
    (query docId : Text) (topK : Nat) (ensure : Bool) :
    retrieve coll vr br query docId topK (some []) ensure = [] := by
  simp [retrieve, sortedDedupAsc, dedupKeepFirst, dedupKeepFirstAux]

/-- C8 counterexample: the empty result of a zero-recognized-pages call
(allowed pages empty) and the empty result of a call whose searchable
pages simply matched nothing are the very same value, the bare empty
list, so the result carries no machine-distinguishable reason. -/
theorem c8_counterexample :
    retrieve collA vrA [] queryA docA 5 (some []) false =
      retrieve collA vrA [] queryA docA 5 (some [5]) false ∧
    retrieve collA vrA [] queryA docA 5 (some []) false = ([] : List TextChunkM) := by
  with_unfolding_all decide

theorem mem_dedupKeepFirstAux {α : Type} [DecidableEq α] (a : α) :
    ∀ (l seen : List α), a ∈ dedupKeepFirstAux seen l ↔ (a ∈ l ∧ a ∉ seen) := by
  intro l
  induction l with
  | nil => intro seen; simp [dedupKeepFirstAux]
  | cons x xs ih =>
    intro seen
    unfold dedupKeepFirstAux
    by_cases hx : x ∈ seen
    · rw [if_pos hx, ih]
      simp only [List.mem_cons]
      constructor
      · rintro ⟨h1, h2⟩
        exact ⟨Or.inr h1, h2⟩
      · rintro ⟨(rfl | h1), h2⟩
        · exact absurd hx h2
        · exact ⟨h1, h2⟩
    · rw [if_neg hx]
      simp only [List.mem_cons, ih]
      constructor
      · rintro (rfl | ⟨h1, h2⟩)
        · exact ⟨Or.inl rfl, hx⟩
        · exact ⟨Or.inr h1, fun hs => h2 (Or.inr hs)⟩
      · rintro ⟨(rfl | h1), h2⟩
        · exact Or.inl rfl
        · by_cases hax : a = x
          · exact Or.inl hax
          · refine Or.inr ⟨h1, fun hs => ?_⟩
            rcases hs with h | h
            · exact hax h
            · exact h2 h

theorem mem_dedupKeepFirst {α : Type} [DecidableEq α] (a : α) (l : List α) :
    a ∈ dedupKeepFirst l ↔ a ∈ l := by
  simp [dedupKeepFirst, mem_dedupKeepFirstAux]

theorem mem_insertAsc (a x : Nat) : ∀ (l : List Nat), a ∈ insertAsc x l ↔ a = x ∨ a ∈ l := by
  intro l
  induction l with
  | nil => simp [insertAsc]
  | cons y ys ih =>
    unfold insertAsc
    by_cases hxy : x ≤ y
    · simp [hxy]
    · rw [if_neg hxy]
      simp only [List.mem_cons, ih]
      tauto

theorem mem_sortedDedupAsc (a : Nat) (l : List Nat) : a ∈ sortedDedupAsc l ↔ a ∈ l := by
  unfold sortedDedupAsc
  rw [← mem_dedupKeepFirst a l]
  generalize dedupKeepFirst l = m
  induction m with
  | nil => simp
  | cons y ys ih => simp [mem_insertAsc, ih]

theorem sortedDedupAsc_ne_nil {l : List Nat} (h : l ≠ []) : sortedDedupAsc l ≠ [] := by
  obtain ⟨x, hx⟩ := List.exists_mem_of_ne_nil l h
  exact List.ne_nil_of_mem ((mem_sortedDedupAsc x l).mpr hx)

theorem build_text_chunk_page (query docId : Text) (e : Entry) :
    (build_text_chunk query docId e).page_number = e.meta.page := rfl

theorem mem_coverPick {cands : List TextChunkM} {topK : Nat} {x : TextChunkM} :
    ∀ {L : List Nat} {sel : List TextChunkM},
      x ∈ coverPick cands topK L sel → x ∈ sel ∨ x ∈ cands := by
  intro L
  induction L with
  | nil => intro sel hx; exact Or.inl hx
  | cons p ps ih =>
    intro sel hx
    unfold coverPick at hx
    split at hx
    · exact ih hx
    · rename_i c hf
      have hc : c ∈ cands := List.mem_of_find?_eq_some hf
      split at hx
      · rcases List.mem_append.mp hx with h | h
        · exact Or.inl h
        · simp at h
          subst h
          exact Or.inr hc
      · rcases ih hx with h | h
        · rcases List.mem_append.mp h with h1 | h1
          · exact Or.inl h1
          · simp at h1
            subst h1
            exact Or.inr hc
        · exact Or.inr h

theorem mem_fillLoop {topK : Nat} {x : TextChunkM} :
    ∀ {cs : List TextChunkM} {used : List Text} {sel : List TextChunkM},
      x ∈ fillLoop topK cs used sel → x ∈ sel ∨ x ∈ cs := by
  intro cs
  induction cs with
  | nil => intro used sel hx; exact Or.inl hx
  | cons c cs ih =>
    intro used sel hx
    unfold fillLoop at hx
    split at hx
    · rcases ih hx with h | h
      · exact Or.inl h
      · exact Or.inr (List.mem_cons_of_mem _ h)
    · split at hx
      · rcases List.mem_append.mp hx with h | h
        · exact Or.inl h
        · simp at h
          subst h
          exact Or.inr (List.mem_cons_self _ _)
      · rcases ih hx with h | h
        · rcases List.mem_append.mp h with h1 | h1
          · exact Or.inl h1
          · simp at h1
            subst h1
            exact Or.inr (List.mem_cons_self _ _)
        · exact Or.inr (List.mem_cons_of_mem _ h)

theorem mem_coverSelect {aSet : List Nat} {cands : List TextChunkM} {topK : Nat}
    {x : TextChunkM} (hx : x ∈ coverSelect aSet cands topK) : x ∈ cands := by
  unfold coverSelect at hx
  have hx1 := List.mem_of_mem_take hx
  by_cases hlen : (coverPick cands topK aSet []).length < topK
  · rw [if_pos hlen] at hx1
    rcases mem_fillLoop hx1 with h | h
    · rcases mem_coverPick h with h1 | h1
      · simp at h1
      · exact h1
    · exact h
  · rw [if_neg hlen] at hx1
    rcases mem_coverPick hx1 with h | h
    · simp at h
    · exact h

theorem mem_retrieveCandidates_page {coll : Collection} {vr br : List Text}
    {query docId : Text} {topK : Nat} {aSet : List Nat} {c : TextChunkM}
    (hc : c ∈ retrieveCandidates coll vr br query docId topK aSet) (hne : aSet ≠ []) :
    c.page_number ∈ aSet := by
  unfold retrieveCandidates at hc
  have hc1 := List.mem_of_mem_take hc
  obtain ⟨cid, _hcid, hp⟩ := List.mem_filterMap.mp hc1
  unfold processCandidate at hp
  split at hp
  · exact absurd hp (by simp)
  · rename_i e hfind
    split at hp
    · exact absurd hp (by simp)
    · rename_i hcond
      split at hp
      · exact absurd hp (by simp)
      · have hce : c = build_text_chunk query docId e := (Option.some.inj hp).symm
        rw [hce, build_text_chunk_page]
        rcases not_and_or.mp hcond with h | h
        · exact absurd hne h
        · exact not_not.mp h

theorem enumFrom_map_page (cs : List TextChunkM) : ∀ (n : Nat),
    ((List.enumFrom n cs).map (fun p =>
      ({ p.2 with ref_id := some ("ref-".data ++ natDecimal (p.1 + 1)) } : TextChunkM))).map
        (fun c => c.page_number) = cs.map (fun c => c.page_number) := by
  induction cs with
  | nil => intro n; rfl
  | cons c cs ih =>
    intro n
    simp only [List.enumFrom, List.map_cons, List.map]
    rw [ih]

theorem assignRefs_map_page (cs : List TextChunkM) :
    (assignRefs cs).map (fun c => c.page_number) = cs.map (fun c => c.page_number) :=
  enumFrom_map_page cs 0

theorem mem_assignRefs_page {cs : List TextChunkM} {x : TextChunkM}
    (hx : x ∈ assignRefs cs) : ∃ c ∈ cs, c.page_number = x.page_number := by
  have h1 : x.page_number ∈ (assignRefs cs).map (fun c => c.page_number) :=
    List.mem_map_of_mem _ hx
  rw [assignRefs_map_page] at h1
  obtain ⟨c, hc, he⟩ := List.mem_map.mp h1
  exact ⟨c, hc, he⟩

theorem mem_assignRefs_page_rev {cs : List TextChunkM} {c : TextChunkM}
    (hc : c ∈ cs) : ∃ x ∈ assignRefs cs, x.page_number = c.page_number := by
  have h1 : c.page_number ∈ cs.map (fun d => d.page_number) := List.mem_map_of_mem _ hc
  rw [← assignRefs_map_page] at h1
  obtain ⟨x, hx, he⟩ := List.mem_map.mp h1
  exact ⟨x, hx, he⟩

theorem retrieve_eq_of_ne {coll : Collection} {vr br : List Text} {query docId : Text}
    {topK : Nat} {l : List Nat} {ensure : Bool} (hne : sortedDedupAsc l ≠ []) :
    retrieve coll vr br query docId topK (some l) ensure =
      (if fusedCandidateIds vr br = [] then []
       else if retrieveCandidates coll vr br query docId topK (sortedDedupAsc l) = [] then []
       else assignRefs (
         if ensure = true ∧ sortedDedupAsc l ≠ [] ∧ (sortedDedupAsc l).length ≤ 20 then
           coverSelect (sortedDedupAsc l)
             (retrieveCandidates coll vr br query docId topK (sortedDedupAsc l)) topK
         else (retrieveCandidates coll vr br query docId topK (sortedDedupAsc l)).take topK)) := by
  unfold retrieve
  simp only [Option.getD, Option.isSome]
  rw [if_neg]
  intro h
  exact hne h.2

/-- C2: for every retrieval call with an explicit allowed-page list,
every returned chunk's page number belongs to that list; and the
explicit empty list short-circuits to the empty result. -/
theorem c2_allowed_pages_filter (coll : Collection) (vr br : List Text) (query docId : Text)
    (topK : Nat) (ensure : Bool) (l : List Nat) :
    (∀ c ∈ retrieve coll vr br query docId topK (some l) ensure, c.page_number ∈ l) ∧
    (l = [] → retrieve coll vr br query docId topK (some l) ensure = []) := by
  have hempty : l = [] → retrieve coll vr br query docId topK (some l) ensure = [] := by
    rintro rfl
    simp [retrieve, sortedDedupAsc, dedupKeepFirst, dedupKeepFirstAux]
  refine ⟨?_, hempty⟩
  intro c hc
  by_cases hl : l = []
  · rw [hempty hl] at hc
    exact absurd hc (by simp)
  · have hne : sortedDedupAsc l ≠ [] := sortedDedupAsc_ne_nil hl
    rw [retrieve_eq_of_ne hne] at hc
    by_cases h1 : fusedCandidateIds vr br = []
    · rw [if_pos h1] at hc
      exact absurd hc (by simp)
    · rw [if_neg h1] at hc
      by_cases h2 : retrieveCandidates coll vr br query docId topK (sortedDedupAsc l) = []
      · rw [if_pos h2] at hc
        exact absurd hc (by simp)
      · rw [if_neg h2] at hc
        obtain ⟨d, hd, hde⟩ := mem_assignRefs_page hc
        rw [← hde]
        by_cases h3 : ensure = true ∧ sortedDedupAsc l ≠ [] ∧ (sortedDedupAsc l).length ≤ 20
        · rw [if_pos h3] at hd
          have hdc := mem_coverSelect hd
          exact (mem_sortedDedupAsc _ _).mp (mem_retrieveCandidates_page hdc hne)
        · rw [if_neg h3] at hd
          have hdc := List.mem_of_mem_take hd
          exact (mem_sortedDedupAsc _ _).mp (mem_retrieveCandidates_page hdc hne)

/-- C2 witness: the explicit empty allowed-page list yields the empty
result on the sample collection. -/
theorem c2_witness :
    retrieve collA vrA [] queryA docA 5 (some []) false = [] :=
  (c2_allowed_pages_filter collA vrA [] queryA docA 5 false []).2 rfl

theorem coverPick_cons_none {cands : List TextChunkM} {topK p : Nat} {ps : List Nat}
    {sel : List TextChunkM}
    (h : cands.find? (fun c => decide (c.page_number = p)) = none) :
    coverPick cands topK (p :: ps) sel = coverPick cands topK ps sel := by
  conv_lhs => unfold coverPick
  rw [h]

theorem coverPick_cons_some {cands : List TextChunkM} {topK p : Nat} {ps : List Nat}
    {sel : List TextChunkM} {c : TextChunkM}
    (h : cands.find? (fun c => decide (c.page_number = p)) = some c) :
    coverPick cands topK (p :: ps) sel =
      if topK ≤ (sel ++ [c]).length then sel ++ [c]
      else coverPick cands topK ps (sel ++ [c]) := by
  conv_lhs => unfold coverPick
  rw [h]

theorem coverPick_keeps {cands : List TextChunkM} {topK : Nat} {x : TextChunkM} :
    ∀ {L : List Nat} {sel : List TextChunkM}, x ∈ sel → x ∈ coverPick cands topK L sel := by
  intro L
  induction L with
  | nil => intro sel hx; exact hx
  | cons q ps ih =>
    intro sel hx
    cases hfq : cands.find? (fun c => decide (c.page_number = q)) with
    | none =>
      rw [coverPick_cons_none hfq]
      exact ih hx
    | some c =>
      rw [coverPick_cons_some hfq]
      by_cases hstop : topK ≤ (sel ++ [c]).length
      · rw [if_pos hstop]
        exact List.mem_append.mpr (Or.inl hx)
      · rw [if_neg hstop]
        exact ih (List.mem_append.mpr (Or.inl hx))

theorem coverPick_covers {cands : List TextChunkM} {topK p : Nat} {c : TextChunkM}
    (hfind : cands.find? (fun d => decide (d.page_number = p)) = some c) :
    ∀ {L : List Nat} {sel : List TextChunkM},
      p ∈ L → sel.length + L.length ≤ topK →
      ∃ d ∈ coverPick cands topK L sel, d.page_number = p := by
  have hcp : c.page_number = p := by
    have := List.find?_some hfind
    simpa using this
  intro L
  induction L with
  | nil => intro sel hp; simp at hp
  | cons q ps ih =>
    intro sel hp hlen
    by_cases hqp : q = p
    · subst hqp
      rw [coverPick_cons_some hfind]
      by_cases hstop : topK ≤ (sel ++ [c]).length
      · rw [if_pos hstop]
        exact ⟨c, List.mem_append.mpr (Or.inr (by simp)), hcp⟩
      · rw [if_neg hstop]
        exact ⟨c, coverPick_keeps (List.mem_append.mpr (Or.inr (by simp))), hcp⟩
    · have hp' : p ∈ ps := by
        rcases List.mem_cons.mp hp with h | h
        · exact absurd h.symm hqp
        · exact h
      cases hfq : cands.find? (fun d => decide (d.page_number = q)) with
      | none =>
        rw [coverPick_cons_none hfq]
        refine ih hp' ?_
        have h2 : (q :: ps).length = ps.length + 1 := rfl
        rw [h2] at hlen
        omega
      | some cq =>
        rw [coverPick_cons_some hfq]
        have h1 : (sel ++ [cq]).length = sel.length + 1 := by simp
        have h2 : (q :: ps).length = ps.length + 1 := rfl
        by_cases hstop : topK ≤ (sel ++ [cq]).length
        · exfalso
          have hps : 0 < ps.length := List.length_pos.mpr (List.ne_nil_of_mem hp')
          rw [h1] at hstop
          rw [h2] at hlen
          omega
        · rw [if_neg hstop]
          refine ih hp' ?_
          rw [h1] at hstop ⊢
          rw [h2] at hlen
          omega

theorem coverPick_length {cands : List TextChunkM} {topK : Nat} :
    ∀ {L : List Nat} {sel : List TextChunkM}, sel.length < topK →
      (coverPick cands topK L sel).length ≤ topK := by
  intro L
  induction L with
  | nil => intro sel h; exact Nat.le_of_lt h
  | cons q ps ih =>
    intro sel h
    cases hfq : cands.find? (fun c => decide (c.page_number = q)) with
    | none =>
      rw [coverPick_cons_none hfq]
      exact ih h
    | some c =>
      rw [coverPick_cons_some hfq]
      have h1 : (sel ++ [c]).length = sel.length + 1 := by simp
      by_cases hstop : topK ≤ (sel ++ [c]).length
      · rw [if_pos hstop, h1]
        omega
      · rw [if_neg hstop]
        refine ih ?_
        rw [h1] at hstop
        omega

theorem fillLoop_extends {topK : Nat} :
    ∀ (cs : List TextChunkM) (used : List Text) (sel : List TextChunkM),
      ∃ ext, fillLoop topK cs used sel = sel ++ ext := by
  intro cs
  induction cs with
  | nil => intro used sel; exact ⟨[], by simp [fillLoop]⟩
  | cons c cs ih =>
    intro used sel
    unfold fillLoop
    by_cases hid : c.id ∈ used
    · rw [if_pos hid]
      exact ih used sel
    · rw [if_neg hid]
      by_cases hstop : topK ≤ (sel ++ [c]).length
      · rw [if_pos hstop]
        exact ⟨[c], rfl⟩
      · rw [if_neg hstop]
        obtain ⟨ext, hext⟩ := ih (used ++ [c.id]) (sel ++ [c])
        exact ⟨c :: ext, by rw [hext]; simp⟩

/-- C1 counterexample: page 2 of the sample document has an indexed
chunk, the call has coverage enabled, a 2-page allowed set and top-k 2,
yet page 2 contributes no result because its only chunk fails the
defensively re-applied noise filter. -/
theorem c1_counterexample :
    (∃ e ∈ collA, e.meta.docId = docA ∧ e.meta.page = 2) ∧
    (retrieve collA vrA [] queryA docA 2 (some [1, 2]) true).length = 1 ∧
    (∀ c ∈ retrieve collA vrA [] queryA docA 2 (some [1, 2]) true, c.page_number ≠ 2) := by
  with_unfolding_all decide

/-- C1 amended: for every retrieval call with page coverage enabled, an
explicit allowed-page set of size at most 20 and top-k at least the
number of allowed pages, every allowed page that contributes at least
one chunk to the call's materialised, noise-filtered candidate list
contributes at least one chunk to the returned result list. -/
theorem c1_amended_coverage (coll : Collection) (vr br : List Text) (query docId : Text)
    (topK : Nat) (l : List Nat) (p : Nat)
    (hsz : (sortedDedupAsc l).length ≤ 20)
    (htk : (sortedDedupAsc l).length ≤ topK)
    (hp : p ∈ l)
    (hcand : ∃ c ∈ retrieveCandidates coll vr br query docId topK (sortedDedupAsc l),
      c.page_number = p) :
    ∃ c ∈ retrieve coll vr br query docId topK (some l) true, c.page_number = p := by
  have hlne : l ≠ [] := List.ne_nil_of_mem hp
  have hne : sortedDedupAsc l ≠ [] := sortedDedupAsc_ne_nil hlne
  rw [retrieve_eq_of_ne hne]
  obtain ⟨c0, hc0, hc0p⟩ := hcand
  have hfused : fusedCandidateIds vr br ≠ [] := by
    intro h
    have hz : retrieveCandidates coll vr br query docId topK (sortedDedupAsc l) = [] := by
      simp [retrieveCandidates, h]
    rw [hz] at hc0
    exact absurd hc0 (by simp)
  have hcne : retrieveCandidates coll vr br query docId topK (sortedDedupAsc l) ≠ [] :=
    List.ne_nil_of_mem hc0
  rw [if_neg hfused, if_neg hcne, if_pos ⟨rfl, hne, hsz⟩]
  have hpA : p ∈ sortedDedupAsc l := (mem_sortedDedupAsc p l).mpr hp
  have hfind : ((retrieveCandidates coll vr br query docId topK (sortedDedupAsc l)).find?
      (fun d => decide (d.page_number = p))).isSome = true := by
    rw [List.find?_isSome]
    exact ⟨c0, hc0, by simp [hc0p]⟩
  obtain ⟨c, hfc⟩ := Option.isSome_iff_exists.mp hfind
  have htopK1 : 0 < topK :=
    Nat.lt_of_lt_of_le (List.length_pos.mpr hne) htk
  obtain ⟨d, hd, hdp⟩ :=
    @coverPick_covers (retrieveCandidates coll vr br query docId topK (sortedDedupAsc l))
      topK p c hfc (sortedDedupAsc l) [] hpA (by simpa using htk)
  have hsellen : (coverPick (retrieveCandidates coll vr br query docId topK (sortedDedupAsc l))
      topK (sortedDedupAsc l) []).length ≤ topK := coverPick_length (by simpa using htopK1)
  have hd2 : d ∈ coverSelect (sortedDedupAsc l)
      (retrieveCandidates coll vr br query docId topK (sortedDedupAsc l)) topK := by
    unfold coverSelect
    by_cases hfill : (coverPick (retrieveCandidates coll vr br query docId topK
        (sortedDedupAsc l)) topK (sortedDedupAsc l) []).length < topK
    · rw [if_pos hfill]
      obtain ⟨ext, hext⟩ := @fillLoop_extends topK
        (retrieveCandidates coll vr br query docId topK (sortedDedupAsc l))
        ((coverPick (retrieveCandidates coll vr br query docId topK (sortedDedupAsc l))
          topK (sortedDedupAsc l) []).map (fun c => c.id))
        (coverPick (retrieveCandidates coll vr br query docId topK (sortedDedupAsc l))
          topK (sortedDedupAsc l) [])
      rw [hext, List.take_append_eq_append_take, List.take_of_length_le hsellen]
      exact List.mem_append.mpr (Or.inl hd)
    · rw [if_neg hfill, List.take_of_length_le hsellen]
      exact hd
  obtain ⟨x, hx, hxp⟩ := mem_assignRefs_page_rev hd2
  exact ⟨x, hx, by rw [hxp, hdp]⟩

/-- C1 witness: on a collection with meaningful chunks on both allowed
pages, page 2 contributes a result. -/
theorem c1_witness :
    2 ∈ [1, 2] ∧
    ∃ c ∈ retrieve collB vrA [] queryA docA 2 (some [1, 2]) true, c.page_number = 2 :=
  ⟨by decide,
   c1_amended_coverage collB vrA [] queryA docA 2 [1, 2] 2 (by decide) (by decide)
     (by decide) (by with_unfolding_all decide)⟩

theorem splitNL_ne_nil : ∀ (l : Text), splitNL l ≠ [] := by
  intro l
  induction l with
  | nil => simp [splitNL]
  | cons c r ih =>
    unfold splitNL
    cases h : splitNL r with
    | nil => exact absurd h ih
    | cons a b =>
      by_cases hc : c = '\n' <;> simp [hc]

theorem splitNL_cons_eq (c : Char) (r : Text) {a : Text} {b : List Text}
    (h : splitNL r = a :: b) :
    splitNL (c :: r) = if c = '\n' then [] :: a :: b else (c :: a) :: b := by
  conv_lhs => unfold splitNL
  rw [h]

theorem splitNL_length (l : Text) : (splitNL l).length = l.count '\n' + 1 := by
  induction l with
  | nil => simp [splitNL]
  | cons c r ih =>
    cases h : splitNL r with
    | nil => exact absurd h (splitNL_ne_nil r)
    | cons a b =>
      rw [splitNL_cons_eq c r h]
      rw [h] at ih
      by_cases hc : c = '\n'
      · subst hc
        rw [if_pos rfl]
        simp [List.count_cons] at ih ⊢
        omega
      · rw [if_neg hc]
        simp [List.count_cons, Ne.symm hc] at ih ⊢
        omega

theorem count_dropWhile_le (q : Char → Bool) (a : Char) :
    ∀ (l : Text), (l.dropWhile q).count a ≤ l.count a := by
  intro l
  induction l with
  | nil => simp
  | cons c r ih =>
    by_cases hq : q c = true
    · rw [List.dropWhile_cons_of_pos hq]
      refine Nat.le_trans ih ?_
      rw [List.count_cons]
      split <;> omega
    · rw [List.dropWhile_cons_of_neg (by simp [hq])]

theorem count_pyStrip_le (a : Char) (l : Text) : (pyStrip l).count a ≤ l.count a := by
  unfold pyStrip
  calc ((l.dropWhile isSpaceChar).reverse.dropWhile isSpaceChar).reverse.count a
      = ((l.dropWhile isSpaceChar).reverse.dropWhile isSpaceChar).count a := by
        rw [List.count_reverse]
    _ ≤ (l.dropWhile isSpaceChar).reverse.count a := count_dropWhile_le _ _ _
    _ = (l.dropWhile isSpaceChar).count a := by rw [List.count_reverse]
    _ ≤ l.count a := count_dropWhile_le _ _ _

theorem joinNL_count :
    ∀ (ts : List Text), (∀ t ∈ ts, '\n' ∉ t) → (joinNL ts).count '\n' = ts.length - 1 := by
  intro ts
  induction ts with
  | nil => intro _; simp [joinNL]
  | cons t ts ih =>
    intro hfree
    cases ts with
    | nil =>
      have h0 : t.count '\n' = 0 := List.count_eq_zero.mpr (hfree t (by simp))
      simp [joinNL, h0]
    | cons t2 rest =>
      have h0 : t.count '\n' = 0 := List.count_eq_zero.mpr (hfree t (by simp))
      have hrec := ih (fun u hu => hfree u (List.mem_cons_of_mem _ hu))
      show (t ++ '\n' :: joinNL (t2 :: rest)).count '\n' = (t :: t2 :: rest).length - 1
      rw [List.count_append, List.count_cons, h0]
      simp only [List.length_cons] at hrec ⊢
      simp at hrec ⊢
      omega

theorem numLines_pyStrip_join (ts : List Text) (hfree : ∀ t ∈ ts, '\n' ∉ t) (hn : ts ≠ []) :
    (splitNL (pyStrip (joinNL ts))).length ≤ ts.length := by
  rw [splitNL_length]
  have h1 := count_pyStrip_le '\n' (joinNL ts)
  have h2 := joinNL_count ts hfree
  have h3 : 0 < ts.length := List.length_pos.mpr hn
  omega

theorem splitNL_no_newline : ∀ (l : Text) (p : Text), p ∈ splitNL l → '\n' ∉ p := by
  intro l
  induction l with
  | nil =>
    intro p hp
    simp [splitNL] at hp
    subst hp
    simp
  | cons c r ih =>
    intro p hp
    cases h : splitNL r with
    | nil => exact absurd h (splitNL_ne_nil r)
    | cons a b =>
      rw [splitNL_cons_eq c r h] at hp
      by_cases hc : c = '\n'
      · rw [if_pos hc] at hp
        rcases List.mem_cons.mp hp with rfl | hp'
        · simp
        · exact ih p (h ▸ hp')
      · rw [if_neg hc] at hp
        rcases List.mem_cons.mp hp with rfl | hp'
        · intro hmem
          rcases List.mem_cons.mp hmem with he | hmem'
          · exact hc he.symm
          · exact ih a (h ▸ List.mem_cons_self a b) hmem'
        · exact ih p (h ▸ List.mem_cons_of_mem a hp')

theorem mem_of_mem_dropWhile {a : Char} {q : Char → Bool} :
    ∀ {l : Text}, a ∈ l.dropWhile q → a ∈ l := by
  intro l
  induction l with
  | nil => simp
  | cons c r ih =>
    intro h
    by_cases hq : q c = true
    · rw [List.dropWhile_cons_of_pos hq] at h
      exact List.mem_cons_of_mem _ (ih h)
    · rw [List.dropWhile_cons_of_neg (by simp [hq])] at h
      exact h

theorem mem_of_mem_pyStrip {a : Char} {l : Text} (h : a ∈ pyStrip l) : a ∈ l := by
  unfold pyStrip at h
  rw [List.mem_reverse] at h
  have h1 := mem_of_mem_dropWhile h
  rw [List.mem_reverse] at h1
  exact mem_of_mem_dropWhile h1

theorem pageLineEntriesAux_text_free (hfKeys : List Text) (coords : List BBoxQ) (total : Nat) :
    ∀ (raws : List Text) (i : Nat), (∀ r ∈ raws, '\n' ∉ r) →
      ∀ e ∈ pageLineEntriesAux hfKeys coords total i raws, '\n' ∉ e.text := by
  intro raws
  induction raws with
  | nil => intro i _ e he; simp [pageLineEntriesAux] at he
  | cons raw rest ih =>
    intro i hfree e he
    unfold pageLineEntriesAux at he
    split at he
    · rcases List.mem_cons.mp he with he1 | he2
      · have htext : e.text = pyStrip raw := by
          split at he1 <;> (subst he1; rfl)
        rw [htext]
        intro hmem
        exact hfree raw (by simp) (mem_of_mem_pyStrip hmem)
      · exact ih (i + 1) (fun r hr => hfree r (List.mem_cons_of_mem _ hr)) e he2
    · exact ih (i + 1) (fun r hr => hfree r (List.mem_cons_of_mem _ hr)) e he

theorem page_line_entries_text_free (hfKeys : List Text) (page : PageContentM) :
    ∀ e ∈ page_line_entries hfKeys page, '\n' ∉ e.text := by
  intro e he
  exact pageLineEntriesAux_text_free hfKeys page.coordinates (splitNL page.text).length
    (splitNL page.text) 0 (fun r hr => splitNL_no_newline page.text r hr) e he

theorem flush_current_inv (docId : Text) (pageNum : Nat) (pageType : Text) (st : GeoState)
    (hcur : st.curTexts.length ≤ 8) (hfree : ∀ t ∈ st.curTexts, '\n' ∉ t)
    (hout : ∀ e ∈ st.out, e.meta.bboxLines.isSome = true → (splitNL e.content).length ≤ 8) :
    (flush_current docId pageNum pageType st).curTexts = [] ∧
    (flush_current docId pageNum pageType st).curTexts.length ≤ 8 ∧
    (∀ t ∈ (flush_current docId pageNum pageType st).curTexts, '\n' ∉ t) ∧
    (∀ e ∈ (flush_current docId pageNum pageType st).out,
      e.meta.bboxLines.isSome = true → (splitNL e.content).length ≤ 8) := by
  unfold flush_current
  split
  · exact ⟨rfl, by simp, by simp, hout⟩
  · rename_i x0 y0 x1 y1 heq
    split_ifs with h1 h2 h3 h4 <;>
      first
        | exact ⟨rfl, by simp, by simp, hout⟩
        | (refine ⟨rfl, by simp, by simp, ?_⟩
           intro e he _hsome
           rcases List.mem_append.mp he with he1 | he2
           · exact hout e he1 _hsome
           · simp only [List.mem_singleton] at he2
             subst he2
             show (splitNL (pyStrip (joinNL st.curTexts))).length ≤ 8
             exact Nat.le_trans (numLines_pyStrip_join st.curTexts hfree h1) hcur)

theorem geoStep_inv (docId : Text) (pageNum : Nat) (pageType : Text) (st : GeoState)
    (en : LineEntry)
    (hcur : st.curTexts.length ≤ 8) (hfree : ∀ t ∈ st.curTexts, '\n' ∉ t)
    (hout : ∀ e ∈ st.out, e.meta.bboxLines.isSome = true → (splitNL e.content).length ≤ 8)
    (hen : '\n' ∉ en.text) :
    (geoStep docId pageNum pageType st en).curTexts.length ≤ 8 ∧
    (∀ t ∈ (geoStep docId pageNum pageType st en).curTexts, '\n' ∉ t) ∧
    (∀ e ∈ (geoStep docId pageNum pageType st en).out,
      e.meta.bboxLines.isSome = true → (splitNL e.content).length ≤ 8) := by
  unfold geoStep
  split_ifs with h1 h2
  · refine ⟨by simp, ?_, hout⟩
    intro t ht
    simp at ht
    subst ht
    exact hen
  · obtain ⟨_hflush0, hflushLen, hflushFree, hflushOut⟩ :=
      flush_current_inv docId pageNum pageType st hcur hfree hout
    refine ⟨by simp, ?_, hflushOut⟩
    intro t ht
    simp at ht
    subst ht
    exact hen
  · have hlen : st.curTexts.length < 8 := by
      rcases not_or.mp h2 with ⟨_hn, hl⟩
      omega
    split
    · refine ⟨?_, ?_, hout⟩
      · simp
        omega
      · intro t ht
        rcases List.mem_append.mp ht with ht1 | ht2
        · exact hfree t ht1
        · simp at ht2
          subst ht2
          exact hen
    · refine ⟨?_, ?_, hout⟩
      · simp
        omega
      · intro t ht
        rcases List.mem_append.mp ht with ht1 | ht2
        · exact hfree t ht1
        · simp at ht2
          subst ht2
          exact hen

theorem geoFold_inv (docId : Text) (pageNum : Nat) (pageType : Text) :
    ∀ (entries : List LineEntry) (st : GeoState),
      (∀ en ∈ entries, '\n' ∉ en.text) →
      st.curTexts.length ≤ 8 → (∀ t ∈ st.curTexts, '\n' ∉ t) →
      (∀ e ∈ st.out, e.meta.bboxLines.isSome = true → (splitNL e.content).length ≤ 8) →
      ((entries.foldl (geoStep docId pageNum pageType) st).curTexts.length ≤ 8 ∧
       (∀ t ∈ (entries.foldl (geoStep docId pageNum pageType) st).curTexts, '\n' ∉ t) ∧
       (∀ e ∈ (entries.foldl (geoStep docId pageNum pageType) st).out,
         e.meta.bboxLines.isSome = true → (splitNL e.content).length ≤ 8)) := by
  intro entries
  induction entries with
  | nil => intro st _ hcur hfree hout; exact ⟨hcur, hfree, hout⟩
  | cons en rest ih =>
    intro st hens hcur hfree hout
    obtain ⟨h1, h2, h3⟩ :=
      geoStep_inv docId pageNum pageType st en hcur hfree hout (hens en (by simp))
    exact ih (geoStep docId pageNum pageType st en)
      (fun x hx => hens x (List.mem_cons_of_mem _ hx)) h1 h2 h3

theorem geoMergePage_out (docId : Text) (pageNum : Nat) (pageType : Text)
    (entries : List LineEntry) (st : GeoState)
    (hens : ∀ en ∈ entries, '\n' ∉ en.text)
    (hcur : st.curTexts.length ≤ 8) (hfree : ∀ t ∈ st.curTexts, '\n' ∉ t)
    (hout : ∀ e ∈ st.out, e.meta.bboxLines.isSome = true → (splitNL e.content).length ≤ 8) :
    ∀ e ∈ (geoMergePage docId pageNum pageType entries st).out,
      e.meta.bboxLines.isSome = true → (splitNL e.content).length ≤ 8 := by
  obtain ⟨h1, h2, h3⟩ := geoFold_inv docId pageNum pageType entries st hens hcur hfree hout
  exact (flush_current_inv docId pageNum pageType _ h1 h2 h3).2.2.2

theorem textPathStep_out (docId : Text) (pageNum : Nat) (pageType : Text) (total : Nat)
    (acc : IndexDocState) (p : Nat × Text)
    (hout : ∀ e ∈ acc.out, e.meta.bboxLines.isSome = true → (splitNL e.content).length ≤ 8) :
    ∀ e ∈ (textPathStep docId pageNum pageType total acc p).out,
      e.meta.bboxLines.isSome = true → (splitNL e.content).length ≤ 8 := by
  unfold textPathStep
  split_ifs with h1 h2 h3 <;>
    first
      | exact hout
      | (intro e he hsome
         rcases List.mem_append.mp he with he1 | he2
         · exact hout e he1 hsome
         · simp only [List.mem_singleton] at he2
           subst he2
           simp at hsome)

theorem textPathPage_out (docId : Text) (pageNum : Nat) (pageType : Text)
    (chunksIn : List Text) (st : IndexDocState)
    (hout : ∀ e ∈ st.out, e.meta.bboxLines.isSome = true → (splitNL e.content).length ≤ 8) :
    ∀ e ∈ (textPathPage docId pageNum pageType chunksIn st).out,
      e.meta.bboxLines.isSome = true → (splitNL e.content).length ≤ 8 := by
  unfold textPathPage
  generalize chunksIn.length = total
  generalize chunksIn.enum = L
  induction L generalizing st with
  | nil => exact hout
  | cons p rest ih =>
    exact ih (textPathStep docId pageNum pageType total st p)
      (textPathStep_out docId pageNum pageType total st p hout)

theorem indexDocPageStep_out (docId : Text) (hfKeys : List Text) (st : IndexDocState)
    (page : PageContentM)
    (hout : ∀ e ∈ st.out, e.meta.bboxLines.isSome = true → (splitNL e.content).length ≤ 8) :
    ∀ e ∈ (indexDocPageStep docId hfKeys st page).out,
      e.meta.bboxLines.isSome = true → (splitNL e.content).length ≤ 8 := by
  unfold indexDocPageStep
  split_ifs with h1 h2
  · exact hout
  · exact geoMergePage_out docId page.page_number page.type
      (page_line_entries hfKeys page) _
      (page_line_entries_text_free hfKeys page) (by simp [idxToGeo]) (by simp [idxToGeo]) hout
  · exact textPathPage_out docId page.page_number page.type _ st hout

/-- C9: every chunk produced by the geometry-based merge path (the
chunks carrying a stored per-line bbox list) has at most 8 lines, so its
merged text length is at most 320 characters or its line count is at
most 8; the merge loop flushes before the open chunk would exceed either
bound, and in particular the line count of any chunk never exceeds 8. -/
theorem c9_geo_chunk_bounds (docId : Text) (pages : List PageContentM) :
    ∀ e ∈ (index_document docId pages).1, e.meta.bboxLines.isSome = true →
      (splitNL e.content).length ≤ 8 ∧
      (e.content.length ≤ 320 ∨ (splitNL e.content).length ≤ 8) := by
  intro e he hsome
  have hmain : (splitNL e.content).length ≤ 8 := by
    unfold index_document at he
    revert he
    generalize collect_header_footer_repeat_keys pages = hfKeys
    have : ∀ (ps : List PageContentM) (st : IndexDocState),
        (∀ x ∈ st.out, x.meta.bboxLines.isSome = true → (splitNL x.content).length ≤ 8) →
        ∀ x ∈ (ps.foldl (indexDocPageStep docId hfKeys) st).out,
          x.meta.bboxLines.isSome = true → (splitNL x.content).length ≤ 8 := by
      intro ps
      induction ps with
      | nil => intro st hst; exact hst
      | cons pg rest ih =>
        intro st hst
        exact ih (indexDocPageStep docId hfKeys st pg)
          (indexDocPageStep_out docId hfKeys st pg hst)
    intro he
    exact this pages { seen := [], count := 0, out := [] } (by simp) e he hsome
  exact ⟨hmain, Or.inr hmain⟩

/-- C9 witness: the sample one-page coordinate document produces exactly
the expected merged chunk, and the bounds hold for it. -/
theorem c9_witness :
    entryW9 ∈ (index_document docW9 [pageW9]).1 ∧
    ((splitNL entryW9.content).length ≤ 8 ∧
     (entryW9.content.length ≤ 320 ∨ (splitNL entryW9.content).length ≤ 8)) :=
  ⟨by with_unfolding_all decide,
   c9_geo_chunk_bounds docW9 [pageW9] entryW9 (by with_unfolding_all decide)
     (by decide)⟩

theorem setStatus_statusMap_other {st : SysSt} {p : Nat} {s : PageStatus} {q : Nat}
    (hq : q ≠ p) : (setStatus st p s).statusMap q = st.statusMap q := by
  show Function.update st.statusMap p s q = st.statusMap q
  exact Function.update_noteq hq s st.statusMap

theorem markFailed_statusMap_other {st : SysSt} {p q : Nat} (hq : q ≠ p) :
    (markFailed st p).statusMap q = st.statusMap q := by
  unfold markFailed
  split
  · rfl
  · exact setStatus_statusMap_other hq

theorem markFailed_totalPages (st : SysSt) (p : Nat) :
    (markFailed st p).totalPages = st.totalPages := by
  unfold markFailed setStatus
  split <;> rfl

theorem markFailed_pending (st : SysSt) (p : Nat) :
    (markFailed st p).pending = st.pending := by
  unfold markFailed setStatus
  split <;> rfl

theorem recognize_preserves (st : SysSt) (docId : Text) (p : Nat) (env : PageEnv) :
    (recognize_document_page st docId p env).2.1.totalPages = st.totalPages ∧
    (recognize_document_page st docId p env).2.1.pending = st.pending ∧
    ∀ q, q ≠ p → (recognize_document_page st docId p env).2.1.statusMap q = st.statusMap q := by
  unfold recognize_document_page
  split_ifs with h1 h2 h3 h4 h5 <;>
    try exact ⟨rfl, rfl, fun q hq => rfl⟩
  · split
    · exact ⟨markFailed_totalPages _ _, markFailed_pending _ _, fun q hq =>
        (markFailed_statusMap_other hq).trans (setStatus_statusMap_other hq)⟩
    · split_ifs with h6 h7
      · exact ⟨markFailed_totalPages _ _, markFailed_pending _ _, fun q hq =>
          (markFailed_statusMap_other hq).trans (setStatus_statusMap_other hq)⟩
      · exact ⟨markFailed_totalPages _ _, markFailed_pending _ _, fun q hq =>
          (markFailed_statusMap_other hq).trans (setStatus_statusMap_other hq)⟩
      · refine ⟨rfl, rfl, fun q hq => ?_⟩
        show Function.update (Function.update st.statusMap p PageStatus.processing) p
          PageStatus.recognized q = st.statusMap q
        rw [Function.update_noteq hq, Function.update_noteq hq]
  · exact ⟨markFailed_totalPages _ _, markFailed_pending _ _, fun q hq =>
      (markFailed_statusMap_other hq).trans (setStatus_statusMap_other hq)⟩

theorem run_ocr_tried {env : PageEnv} (hb : env.hasBaidu = true) :
    (run_ocr env).2 = true := by
  unfold run_ocr
  rw [if_pos hb]
  cases env.primary with
  | ok cs => dsimp only; split_ifs <;> rfl
  | authError => rfl
  | otherError => rfl

theorem recognize_tried (st : SysSt) (docId : Text) (p : Nat) (env : PageEnv)
    (hr : 1 ≤ p ∧ p ≤ st.totalPages)
    (hs1 : st.statusMap p ≠ PageStatus.recognized)
    (hs2 : st.statusMap p ≠ PageStatus.processing)
    (hf : env.hasFile = true) (hi : env.imageOk = true) (hb : env.hasBaidu = true) :
    (recognize_document_page st docId p env).2.2 = true := by
  have htried : (run_ocr env).2 = true := run_ocr_tried hb
  unfold recognize_document_page
  rw [if_neg (not_not_intro hr), if_neg hs1, if_neg hs2,
    if_neg (not_not_intro hf), if_neg (not_not_intro hi)]
  rcases hro : run_ocr env with ⟨ores, tried⟩
  rw [hro] at htried
  cases ores with
  | none => exact htried
  | some pr =>
    rcases pr with ⟨chunks, prov⟩
    dsimp only
    split_ifs <;> exact htried

theorem releasePages_statusMap (st : SysSt) (ps : List Nat) :
    (releasePages st ps).statusMap = st.statusMap := rfl

theorem releasePages_totalPages (st : SysSt) (ps : List Nat) :
    (releasePages st ps).totalPages = st.totalPages := rfl

theorem releasePages_not_mem {st : SysSt} {ps : List Nat} {p : Nat} (hp : p ∈ ps) :
    p ∉ (releasePages st ps).pending := by
  unfold releasePages
  intro hmem
  have := List.of_mem_filter hmem
  simp at this
  exact this hp

theorem runJobAux_totalPages (docId : Text) (envs : Nat → PageEnv) (cancelAt : Nat → Bool) :
    ∀ (pages : List Nat) (i : Nat) (st : SysSt),
      (runJobAux docId envs cancelAt i st pages).1.totalPages = st.totalPages := by
  intro pages
  induction pages with
  | nil => intro i st; rfl
  | cons p0 rest ih =>
    intro i st
    unfold runJobAux
    split_ifs with hc
    · rfl
    · exact (ih (i + 1) _).trans
        ((releasePages_totalPages _ _).trans (recognize_preserves st docId p0 (envs i)).1)

theorem runJobAux_cancel (docId : Text) (envs : Nat → PageEnv) (cancelAt : Nat → Bool) :
    ∀ (pages : List Nat) (i : Nat) (st : SysSt) (k : Nat),
      pages.Nodup →
      cancelAt (i + k) = true → (∀ j, j < k → cancelAt (i + j) = false) →
      ∀ p ∈ pages.drop k,
        (runJobAux docId envs cancelAt i st pages).1.statusMap p = st.statusMap p ∧
        p ∉ (runJobAux docId envs cancelAt i st pages).1.pending := by
  intro pages
  induction pages with
  | nil => intro i st k _ _ _ p hp; simp at hp
  | cons p0 rest ih =>
    intro i st k hnodup hck hbef p hp
    cases k with
    | zero =>
      have hci : cancelAt i = true := by simpa using hck
      unfold runJobAux
      rw [if_pos hci]
      exact ⟨rfl, releasePages_not_mem hp⟩
    | succ kk =>
      have hci : cancelAt i = false := by
        have := hbef 0 (Nat.succ_pos kk)
        simpa using this
      unfold runJobAux
      rw [if_neg (by simp [hci])]
      have hp' : p ∈ rest.drop kk := hp
      have hpr : p ∈ rest := List.mem_of_mem_drop hp'
      have hpp0 : p ≠ p0 := by
        intro he
        subst he
        exact (List.nodup_cons.mp hnodup).1 hpr
      have ihh := ih (i + 1)
        (releasePages (recognize_document_page st docId p0 (envs i)).2.1 [p0]) kk
        (List.nodup_cons.mp hnodup).2
        (by rw [show i + 1 + kk = i + (kk + 1) by omega]; exact hck)
        (fun j hj => by
          rw [show i + 1 + j = i + (j + 1) by omega]
          exact hbef (j + 1) (by omega))
        p hp'
      refine ⟨ihh.1.trans ?_, ihh.2⟩
      show (releasePages (recognize_document_page st docId p0 (envs i)).2.1 [p0]).statusMap p =
        st.statusMap p
      rw [releasePages_statusMap]
      exact (recognize_preserves st docId p0 (envs i)).2.2 p hpp0

theorem runJobAux_trace (docId : Text) (envs : Nat → PageEnv) (cancelAt : Nat → Bool) :
    ∀ (pages : List Nat) (i : Nat) (st : SysSt),
      pages.Nodup →
      (∀ p ∈ pages, 1 ≤ p ∧ p ≤ st.totalPages) →
      (∀ p ∈ pages, st.statusMap p = PageStatus.unrecognized) →
      (∀ j, (envs j).hasFile = true ∧ (envs j).imageOk = true ∧ (envs j).hasBaidu = true) →
      (∀ j, cancelAt j = false) →
      (runJobAux docId envs cancelAt i st pages).2 = pages.map (fun p => (p, true)) := by
  intro pages
  induction pages with
  | nil => intro i st _ _ _ _ _; rfl
  | cons p0 rest ih =>
    intro i st hnd hrange hstat henv hcan
    unfold runJobAux
    rw [if_neg (by simp [hcan i])]
    have h0 : st.statusMap p0 = PageStatus.unrecognized := hstat p0 (by simp)
    have htr : (recognize_document_page st docId p0 (envs i)).2.2 = true :=
      recognize_tried st docId p0 (envs i) (hrange p0 (by simp))
        (by rw [h0]; simp) (by rw [h0]; simp)
        (henv i).1 (henv i).2.1 (henv i).2.2
    have hpres := recognize_preserves st docId p0 (envs i)
    have hrest := ih (i + 1)
      (releasePages (recognize_document_page st docId p0 (envs i)).2.1 [p0])
      (List.nodup_cons.mp hnd).2
      (fun q hq => by
        rw [releasePages_totalPages, hpres.1]
        exact hrange q (List.mem_cons_of_mem _ hq))
      (fun q hq => by
        rw [releasePages_statusMap]
        have hqp : q ≠ p0 := by
          intro he
          subst he
          exact (List.nodup_cons.mp hnd).1 hq
        rw [hpres.2.2 q hqp]
        exact hstat q (List.mem_cons_of_mem _ hq))
      henv hcan
    show ((p0, (recognize_document_page st docId p0 (envs i)).2.2) ::
      (runJobAux docId envs cancelAt (i + 1)
        (releasePages (recognize_document_page st docId p0 (envs i)).2.1 [p0]) rest).2) =
      (p0 :: rest).map (fun p => (p, true))
    rw [htr, List.map_cons, hrest]

theorem enqueueFold_queued_mono (st : SysSt) {x : Nat} :
    ∀ (L : List Nat) (acc : List Nat × List Nat),
      x ∈ acc.1 → x ∈ (L.foldl (enqueueStep st) acc).1 := by
  intro L
  induction L with
  | nil => intro acc hx; exact hx
  | cons q rest ih =>
    intro acc hx
    refine ih (enqueueStep st acc q) ?_
    unfold enqueueStep
    split_ifs with h1 h2
    · exact hx
    · exact hx
    · exact List.mem_append.mpr (Or.inl hx)

theorem enqueueFold_queues (st : SysSt) {p : Nat}
    (hs1 : st.statusMap p ≠ PageStatus.recognized)
    (hs2 : st.statusMap p ≠ PageStatus.processing) :
    ∀ (L : List Nat) (acc : List Nat × List Nat), p ∈ L → p ∉ acc.2 →
      p ∈ (L.foldl (enqueueStep st) acc).1 := by
  intro L
  induction L with
  | nil => intro acc hp; simp at hp
  | cons q rest ih =>
    intro acc hp hacc
    by_cases hqp : q = p
    · subst hqp
      have hstep : enqueueStep st acc q = (acc.1 ++ [q], acc.2 ++ [q]) := by
        unfold enqueueStep
        rw [if_neg (by rintro (h | h); exact hs1 h; exact hs2 h), if_neg hacc]
      rw [List.foldl_cons, hstep]
      exact enqueueFold_queued_mono st rest _ (List.mem_append.mpr (Or.inr (by simp)))
    · have hp' : p ∈ rest := by
        rcases List.mem_cons.mp hp with h | h
        · exact absurd h.symm hqp
        · exact h
      rw [List.foldl_cons]
      refine ih (enqueueStep st acc q) hp' ?_
      unfold enqueueStep
      split_ifs with h1 h2
      · exact hacc
      · exact hacc
      · intro hmem
        rcases List.mem_append.mp hmem with h | h
        · exact hacc h
        · simp at h
          exact hqp h.symm

theorem enqueue_queues (st : SysSt) (pagesReq : List Nat) (p : Nat)
    (hmem : p ∈ pagesReq) (hval : 1 ≤ p ∧ p ≤ st.totalPages)
    (hs1 : st.statusMap p ≠ PageStatus.recognized)
    (hs2 : st.statusMap p ≠ PageStatus.processing)
    (hpend : p ∉ st.pending) :
    p ∈ (enqueue_ocr_job st pagesReq).1 := by
  unfold enqueue_ocr_job
  refine enqueueFold_queues st hs1 hs2 _ ([], st.pending) ?_ hpend
  rw [List.mem_filter]
  exact ⟨(mem_sortedDedupAsc p pagesReq).mpr hmem, by simpa using hval⟩

/-- C6: requesting recognition of an already-recognized page returns the
already-recognized response with the state untouched (no index mutation,
no status change), and a page in processing likewise short-circuits with
the informational response and no mutation.  In both cases the provider
chain is not invoked. -/
theorem c6_idempotent_short_circuit (st : SysSt) (docId : Text) (p : Nat) (env : PageEnv)
    (h1 : 1 ≤ p) (h2 : p ≤ st.totalPages) :
    (st.statusMap p = PageStatus.recognized →
      recognize_document_page st docId p env =
        (RecognizeOutcome.alreadyRecognized, st, false)) ∧
    (st.statusMap p = PageStatus.processing →
      recognize_document_page st docId p env =
        (RecognizeOutcome.alreadyProcessing, st, false)) := by
  constructor
  · intro hrec
    unfold recognize_document_page
    rw [if_neg (not_not_intro ⟨h1, h2⟩), if_pos hrec]
  · intro hproc
    unfold recognize_document_page
    rw [if_neg (not_not_intro ⟨h1, h2⟩), if_neg (by simp [hproc]), if_pos hproc]

/-- C6 witness: on the sample document, the recognized page 1 and the
processing page 2 both short-circuit with the state unchanged. -/
theorem c6_witness :
    recognize_document_page stC6 docA 1 envC6 =
      (RecognizeOutcome.alreadyRecognized, stC6, false) ∧
    recognize_document_page stC6 docA 2 envC6 =
      (RecognizeOutcome.alreadyProcessing, stC6, false) :=
  ⟨(c6_idempotent_short_circuit stC6 docA 1 envC6 (by decide) (by decide)).1 (by decide),
   (c6_idempotent_short_circuit stC6 docA 2 envC6 (by decide) (by decide)).2 (by decide)⟩

/-- C3 counterexample: the primary provider raises an auth error on page
1 of a two-page job, yet the trace shows the primary is invoked again on
page 2 (both trace flags true); page 2 still succeeds through the local
fallback.  There is no sticky auth state in the code. -/
theorem c3_counterexample :
    envAuth.primary = PrimaryBehavior.authError ∧
    (run_ocr_worker_job docA (fun _ => envAuth) (fun _ => false) stC3 [1, 2]).2 =
      [(1, true), (2, true)] ∧
    (run_ocr_worker_job docA (fun _ => envAuth) (fun _ => false) stC3 [1, 2]).1.statusMap 2 =
      PageStatus.recognized := by
  with_unfolding_all decide

/-- C3 amended: an authentication/permission error on a page makes that
page fall back to the local provider, but the failure is not sticky: on
every page of a job that reaches the provider chain with the primary
configured, the primary is invoked, regardless of the primary's
behaviour (including auth errors) on earlier pages. -/
theorem c3_amended_primary_retried (docId : Text) (envs : Nat → PageEnv)
    (cancelAt : Nat → Bool) (st : SysSt) (pages : List Nat)
    (hnodup : pages.Nodup)
    (hrange : ∀ p ∈ pages, 1 ≤ p ∧ p ≤ st.totalPages)
    (hstat : ∀ p ∈ pages, st.statusMap p = PageStatus.unrecognized)
    (henv : ∀ j, (envs j).hasFile = true ∧ (envs j).imageOk = true ∧ (envs j).hasBaidu = true)
    (hcancel : ∀ j, cancelAt j = false) :
    (run_ocr_worker_job docId envs cancelAt st pages).2 = pages.map (fun p => (p, true)) :=
  runJobAux_trace docId envs cancelAt pages 0 st hnodup hrange hstat henv hcancel

/-- C3 witness: the two-page all-auth-error job's trace shows the
primary invoked on both pages. -/
theorem c3_witness :
    (run_ocr_worker_job docA (fun _ => envAuth) (fun _ => false) stC3 [1, 2]).2 =
      [1, 2].map (fun p => (p, true)) :=
  c3_amended_primary_retried docA (fun _ => envAuth) (fun _ => false) stC3 [1, 2]
    (by decide) (by decide) (by decide)
    (fun j => ⟨rfl, rfl, rfl⟩) (fun j => rfl)

/-- C5 counterexample: a failed page may be re-enqueued; cancelling its
job before it is processed leaves it in status failed, not unrecognized
as the claim states. -/
theorem c5_counterexample :
    stC5.statusMap 1 = PageStatus.failed ∧
    (run_ocr_worker_job docA (fun _ => envC5) (fun _ => true) stC5 [1]).2 = [] ∧
    (run_ocr_worker_job docA (fun _ => envC5) (fun _ => true) stC5 [1]).1.statusMap 1 =
      PageStatus.failed := by
  with_unfolding_all decide

/-- C5 amended: setting the cancellation flag while a job is queued or
in flight leaves every not-yet-processed page's status unchanged — in
particular a page that was unrecognized stays unrecognized and is never
marked failed — and a subsequent enqueue of the same pages queues every
such page again (every unprocessed page of the job that is neither
recognized nor processing is queued). -/
theorem c5_amended_cancel (docId : Text) (envs : Nat → PageEnv) (cancelAt : Nat → Bool)
    (st : SysSt) (pages : List Nat) (k : Nat)
    (hnodup : pages.Nodup)
    (hrange : ∀ p ∈ pages, 1 ≤ p ∧ p ≤ st.totalPages)
    (hck : cancelAt k = true)
    (hbef : ∀ j, j < k → cancelAt j = false) :
    (∀ p ∈ pages.drop k,
      (run_ocr_worker_job docId envs cancelAt st pages).1.statusMap p = st.statusMap p) ∧
    (∀ p ∈ pages.drop k,
      st.statusMap p ≠ PageStatus.recognized → st.statusMap p ≠ PageStatus.processing →
      p ∈ (enqueue_ocr_job (run_ocr_worker_job docId envs cancelAt st pages).1 pages).1) := by
  have hmain : ∀ p ∈ pages.drop k,
      (run_ocr_worker_job docId envs cancelAt st pages).1.statusMap p = st.statusMap p ∧
      p ∉ (run_ocr_worker_job docId envs cancelAt st pages).1.pending :=
    runJobAux_cancel docId envs cancelAt pages 0 st k hnodup
      (by simpa using hck) (fun j hj => by simpa using hbef j hj)
  have ht : (run_ocr_worker_job docId envs cancelAt st pages).1.totalPages = st.totalPages :=
    runJobAux_totalPages docId envs cancelAt pages 0 st
  constructor
  · intro p hp
    exact (hmain p hp).1
  · intro p hp hs1 hs2
    have hcomp := hmain p hp
    refine enqueue_queues _ pages p (List.mem_of_mem_drop hp) ?_ ?_ ?_ hcomp.2
    · rw [ht]
      exact hrange p (List.mem_of_mem_drop hp)
    · rw [hcomp.1]
      exact hs1
    · rw [hcomp.1]
      exact hs2

theorem digitChar_isDigit (n : Nat) : (digitChar n).isDigit = true := by
  unfold digitChar
  split <;> decide

theorem natDecimalAux_digits : ∀ (fuel n : Nat), ∀ c ∈ natDecimalAux fuel n,
    c.isDigit = true := by
  intro fuel
  induction fuel with
  | zero => intro n c hc; simp [natDecimalAux] at hc
  | succ f ih =>
    intro n c hc
    unfold natDecimalAux at hc
    split_ifs at hc with h
    · simp at hc
      subst hc
      exact digitChar_isDigit n
    · rcases List.mem_append.mp hc with h1 | h1
      · exact ih (n / 10) c h1
      · simp at h1
        subst h1
        exact digitChar_isDigit (n % 10)

theorem natDecimal_digits (n : Nat) : ∀ c ∈ natDecimal n, c.isDigit = true :=
  natDecimalAux_digits (n + 1) n

theorem charVal_digitChar : ∀ d, d < 10 → charVal (digitChar d) = d := by decide

theorem decValAux_append (a b : Text) : ∀ (acc : Nat),
    decValAux (a ++ b) acc = decValAux b (decValAux a acc) := by
  induction a with
  | nil => intro acc; rfl
  | cons c as ih => intro acc; exact ih _

theorem decValAux_natDecimalAux : ∀ (fuel n : Nat), n < fuel →
    decValAux (natDecimalAux fuel n) 0 = n := by
  intro fuel
  induction fuel with
  | zero => intro n h; omega
  | succ f ih =>
    intro n h
    unfold natDecimalAux
    split_ifs with h10
    · show 0 * 10 + charVal (digitChar n) = n
      rw [charVal_digitChar n h10]
      omega
    · rw [decValAux_append]
      have hd : n / 10 < f := by
        have h1 : n / 10 < n := Nat.div_lt_self (by omega) (by omega)
        omega
      rw [ih (n / 10) hd]
      show (n / 10) * 10 + charVal (digitChar (n % 10)) = n
      rw [charVal_digitChar (n % 10) (Nat.mod_lt _ (by omega))]
      omega

theorem natDecimal_inj {m n : Nat} (h : natDecimal m = natDecimal n) : m = n := by
  have hm := decValAux_natDecimalAux (m + 1) m (Nat.lt_succ_self m)
  have hn := decValAux_natDecimalAux (n + 1) n (Nat.lt_succ_self n)
  unfold natDecimal at h
  rw [h, hn] at hm
  exact hm.symm

theorem digits_sep_inj : ∀ (a b u v : Text),
    (∀ c ∈ a, c.isDigit = true) → (∀ c ∈ b, c.isDigit = true) →
    a ++ '_' :: u = b ++ '_' :: v → a = b ∧ u = v := by
  intro a
  induction a with
  | nil =>
    intro b u v _ hb h
    cases b with
    | nil =>
      simp at h
      exact ⟨rfl, h⟩
    | cons c bs =>
      simp at h
      have hbc := hb c (List.mem_cons_self c bs)
      rw [← h.1] at hbc
      exact absurd hbc (by decide)
  | cons c as ih =>
    intro b u v ha hb h
    cases b with
    | nil =>
      simp at h
      have hac := ha c (List.mem_cons_self c as)
      rw [h.1] at hac
      exact absurd hac (by decide)
    | cons c2 bs =>
      simp at h
      obtain ⟨hab, huv⟩ := ih bs u v (fun x hx => ha x (List.mem_cons_of_mem _ hx))
        (fun x hx => hb x (List.mem_cons_of_mem _ hx)) h.2
      exact ⟨by rw [h.1, hab], huv⟩

theorem ocrChunkId_page_inj {d : Text} {p i q j : Nat}
    (h : ocrChunkId d p i = ocrChunkId d q j) : p = q := by
  unfold ocrChunkId at h
  have h2 := List.append_cancel_left h
  injection h2 with h3a h3
  injection h3 with h4a h4
  obtain ⟨hpq, _⟩ := digits_sep_inj (natDecimal p) (natDecimal q) _ _
    (natDecimal_digits p) (natDecimal_digits q) h4
  exact natDecimal_inj hpq

theorem ocrChunkId_ne_blockChunkId (d : Text) (p i n : Nat) :
    ocrChunkId d p i ≠ blockChunkId d n := by
  intro h
  unfold ocrChunkId blockChunkId block_id_text at h
  have h2 := List.append_cancel_left h
  injection h2 with h3a h3
  injection h3 with h4 h5
  exact absurd h4 (by decide)

theorem mem_ocrEntriesForAux {docId : Text} {pageNum : Nat} :
    ∀ (chunks : List OCRChunkIn) (idx : Nat) (e : Entry),
      e ∈ ocrEntriesForAux docId pageNum idx chunks →
      e.meta.blockId = none ∧ ∃ i, e.id = ocrChunkId docId pageNum i := by
  intro chunks
  induction chunks with
  | nil => intro idx e he; simp [ocrEntriesForAux] at he
  | cons ch rest ih =>
    intro idx e he
    unfold ocrEntriesForAux at he
    split_ifs at he with h
    · exact ih (idx + 1) e he
    · rcases List.mem_cons.mp he with he1 | he2
      · subst he1
        exact ⟨rfl, idx, rfl⟩
      · exact ih (idx + 1) e he2

theorem mem_clear_page_ocr_chunks {coll : Collection} {docId : Text} {pageNum : Nat}
    {e : Entry} :
    e ∈ clear_page_ocr_chunks coll docId pageNum ↔
    e ∈ coll ∧ ¬(e.meta.docId = docId ∧ e.meta.page = pageNum ∧
      e.meta.source = "ocr".data) := by
  unfold clear_page_ocr_chunks
  rw [List.mem_filter]
  simp
  tauto

/-- C4 counterexample: re-recognizing page 1 does not assign fresh ids:
the rebuilt collection carries exactly the same Chroma ids as before the
re-recognition, and none of its chunks carries any block id at all (the
OCR indexing path never assigns block ids), although the collection did
change. -/
theorem c4_counterexample :
    collD2 ≠ collD1 ∧
    collD2.map Entry.id = collD1.map Entry.id ∧
    ∀ e ∈ collD2, e.meta.blockId = none := by
  with_unfolding_all decide

/-- Well-formed ids of the mixed sample collection: its OCR chunk carries
the page-scoped OCR id and its native chunk a block-counter id. -/
theorem collW4_wellformed : DocIdsWellFormed collW4 docA := by
  have hcoll : collD1 = [firstOcrEntryD] := by with_unfolding_all decide
  intro e he hdoc
  rcases List.mem_cons.mp he with he1 | he2
  · subst he1
    constructor
    · intro hsrc
      exact absurd hsrc (by decide)
    · intro hsrc
      exact ⟨1, rfl⟩
  · rw [hcoll] at he2
    simp at he2
    subst he2
    constructor
    · intro hsrc
      exact ⟨0, rfl⟩
    · intro hsrc
      exact absurd rfl hsrc

/-- C4: under the id discipline the two indexing entry points establish
(OCR chunks carry page-scoped OCR ids, other chunks block-counter ids),
re-recognizing one page first drops exactly that page's OCR chunks and
appends the new ones; every chunk of any other page or source survives
untouched (so block ids already issued are undisturbed); the new chunks
carry no block id; and no new chunk's id collides with the id of any
surviving chunk of the document. -/
theorem c4_amended (coll : Collection) (docId : Text) (pageNum : Nat)
    (chunks : List OCRChunkIn) (hwf : DocIdsWellFormed coll docId) :
    reindex_page_ocr coll docId pageNum chunks =
      clear_page_ocr_chunks coll docId pageNum ++ ocrEntriesForAux docId pageNum 0 chunks ∧
    (∀ e ∈ coll,
      ¬(e.meta.docId = docId ∧ e.meta.page = pageNum ∧ e.meta.source = "ocr".data) →
      e ∈ reindex_page_ocr coll docId pageNum chunks) ∧
    (∀ e ∈ ocrEntriesForAux docId pageNum 0 chunks, e.meta.blockId = none) ∧
    (∀ e ∈ ocrEntriesForAux docId pageNum 0 chunks,
      ∀ e2 ∈ clear_page_ocr_chunks coll docId pageNum,
        e2.meta.docId = docId → e.id ≠ e2.id) := by
  refine ⟨rfl, ?_, ?_, ?_⟩
  · intro e he hkeep
    show e ∈ clear_page_ocr_chunks coll docId pageNum ++ ocrEntriesForAux docId pageNum 0 chunks
    exact List.mem_append.mpr (Or.inl (mem_clear_page_ocr_chunks.mpr ⟨he, hkeep⟩))
  · intro e he
    exact (mem_ocrEntriesForAux chunks 0 e he).1
  · intro e he e2 he2 hdoc2 heq
    obtain ⟨hbid, i, hid⟩ := mem_ocrEntriesForAux chunks 0 e he
    obtain ⟨hmem2, hkeep2⟩ := mem_clear_page_ocr_chunks.mp he2
    have hwf2 := hwf e2 hmem2 hdoc2
    by_cases hsrc : e2.meta.source = "ocr".data
    · obtain ⟨j, hid2⟩ := hwf2.1 hsrc
      have hpage : e2.meta.page ≠ pageNum := by
        intro hp
        exact hkeep2 ⟨hdoc2, hp, hsrc⟩
      rw [hid, hid2] at heq
      exact hpage (ocrChunkId_page_inj heq).symm
    · obtain ⟨n, hid2⟩ := hwf2.2 hsrc
      rw [hid, hid2] at heq
      exact ocrChunkId_ne_blockChunkId docId pageNum i n heq

/-- C4 witness: on the mixed sample collection, the native page-2 chunk
survives the re-recognition of page 1, the new chunk carries no block id,
and its id collides with no surviving id of the document. -/
theorem c4_witness :
    entryNativeD ∈ reindex_page_ocr collW4 docA 1 [chD2] ∧
    (∀ e ∈ ocrEntriesForAux docA 1 0 [chD2], e.meta.blockId = none) ∧
    (∀ e ∈ ocrEntriesForAux docA 1 0 [chD2],
      ∀ e2 ∈ clear_page_ocr_chunks collW4 docA 1, e2.meta.docId = docA → e.id ≠ e2.id) :=
  ⟨(c4_amended collW4 docA 1 [chD2] collW4_wellformed).2.1 entryNativeD
     (List.mem_cons_self entryNativeD collD1) (by with_unfolding_all decide),
   (c4_amended collW4 docA 1 [chD2] collW4_wellformed).2.2.1,
   (c4_amended collW4 docA 1 [chD2] collW4_wellformed).2.2.2⟩

/-- C5 witness: cancelling before processing a queued unrecognized page
leaves it unrecognized, and re-enqueueing the same page queues it
again. -/
theorem c5_witness :
    (run_ocr_worker_job docA (fun _ => envC5) (fun _ => true) stC5w [1]).1.statusMap 1 =
      stC5w.statusMap 1 ∧
    1 ∈ (enqueue_ocr_job (run_ocr_worker_job docA (fun _ => envC5) (fun _ => true)
      stC5w [1]).1 [1]).1 :=
  ⟨(c5_amended_cancel docA (fun _ => envC5) (fun _ => true) stC5w [1] 0 (by decide)
      (by decide) rfl (fun j hj => absurd hj (Nat.not_lt_zero j))).1 1 (by decide),
   (c5_amended_cancel docA (fun _ => envC5) (fun _ => true) stC5w [1] 0 (by decide)
      (by decide) rfl (fun j hj => absurd hj (Nat.not_lt_zero j))).2 1 (by decide)
      (by decide) (by decide)⟩

end PDFQA
